import Mathlib

/-!
Verification of the financial-document extraction pipeline of the
Solvency-Compliance-Project repository (`backend/ai_assistant.py`, the
Gemini-based `GPTComplianceAgent`).

The Python code is shallowly embedded: Python values (the JSON fragment of
them that the pipeline manipulates) become the inductive `PyVal`; Python
`dict`s become insertion-ordered association lists with Python's
replace-in-place/append-at-end update semantics; `re` patterns are
transcribed into a small executable regex AST with Python's
leftmost/greedy/backtracking match order; `json.loads` / `json.dumps`
are an executable JSON parser/printer; Python floats are idealized as
exact rationals (`ℚ`).  Network I/O of the LLM client is modelled by an
explicit environment record describing the outcome of each HTTP attempt.
-/

set_option autoImplicit false
set_option maxRecDepth 8000

namespace Solvency

/-! ## Python values

`PyVal` models the Python values flowing through the pipeline: the JSON
universe (`None`, `bool`, `int`, `float`, `str`, `list`, `dict`) with
floats idealized as exact rationals. -/

inductive PyVal : Type where
  | null : PyVal
  | bool (b : Bool) : PyVal
  | int (n : ℤ) : PyVal
  | float (q : ℚ) : PyVal
  | str (s : String) : PyVal
  | arr (elems : List PyVal) : PyVal
  | obj (entries : List (String × PyVal)) : PyVal

/-- Python truthiness (`if v:`): `None`, `False`, `0`, `0.0`, `""`, `[]`,
and the empty dict are falsy; everything else is truthy. -/
def pyTruthy : PyVal → Bool
  | .null => false
  | .bool b => b
  | .int n => n != 0
  | .float q => q != 0
  | .str s => s != ""
  | .arr es => !es.isEmpty
  | .obj es => !es.isEmpty

/-! ## Python dicts as insertion-ordered association lists -/

abbrev PyDict := List (String × PyVal)

/-- First binding of a key (Python dicts have unique keys, so first =
only). -/
def dget? : PyDict → String → Option PyVal
  | [], _ => none
  | kv :: rest, k => if kv.1 = k then some kv.2 else dget? rest k

/-- `k in d`. -/
def dcontains : PyDict → String → Bool
  | [], _ => false
  | kv :: rest, k => kv.1 = k || dcontains rest k

/-- `d[k] = v`: replace the value in place if the key exists, else
append (Python dict insertion-order semantics). -/
def dinsert : PyDict → String → PyVal → PyDict
  | [], k, v => [(k, v)]
  | kv :: rest, k, v => if kv.1 = k then (k, v) :: rest else kv :: dinsert rest k v

/-- `d.update(e)`: insert each binding of `e` into `d`, in order. -/
def dupdate (d : PyDict) (e : PyDict) : PyDict :=
  e.foldl (fun acc kv => dinsert acc kv.1 kv.2) d

/-- The key list of a dict, in insertion order. -/
def dkeys (d : PyDict) : List String := d.map (·.1)

/-! ## Python `float(...)` on cleaned numeric strings

`parse_number` (defined twice, identically, inside `summarize_chunk` and
`extract_structured_metrics`) cleans a token down to the characters
`0-9 . - e E` and calls `float` on it.  `pyFloat?` models Python's
`float(str)` on such strings: optional minus sign, decimal digits with an
optional fractional part (at least one digit on one side of the dot), and
an optional `e`/`E` exponent.  (`inf`/`nan`/underscore forms cannot occur
after cleaning: their letters are stripped.) -/

def digitsToNat (ds : List Char) : ℕ :=
  ds.foldl (fun acc c => acc * 10 + (c.toNat - 48)) 0

/-- Parse the exponent part after `e`/`E`: optional sign then at least one
digit. -/
def parseExp (cs : List Char) : Option ℤ :=
  match cs with
  | '-' :: rest =>
      let ds := rest.takeWhile Char.isDigit
      if ds.isEmpty ∨ ¬(rest.dropWhile Char.isDigit).isEmpty then none
      else some (-(digitsToNat ds : ℤ))
  | '+' :: rest =>
      let ds := rest.takeWhile Char.isDigit
      if ds.isEmpty ∨ ¬(rest.dropWhile Char.isDigit).isEmpty then none
      else some (digitsToNat ds : ℤ)
  | _ =>
      let ds := cs.takeWhile Char.isDigit
      if ds.isEmpty ∨ ¬(cs.dropWhile Char.isDigit).isEmpty then none
      else some (digitsToNat ds : ℤ)

/-- The significand and exponent of an unsigned float literal:
`digits [. digits] [exp]` or `. digits [exp]`. -/
def parseUnsignedFloat (cs : List Char) : Option ℚ :=
  let intDs := cs.takeWhile Char.isDigit
  let rest := cs.dropWhile Char.isDigit
  match rest with
  | '.' :: rest2 =>
      let fracDs := rest2.takeWhile Char.isDigit
      let rest3 := rest2.dropWhile Char.isDigit
      if intDs.isEmpty ∧ fracDs.isEmpty then none
      else
        let mant : ℚ := (digitsToNat intDs : ℚ) +
          (digitsToNat fracDs : ℚ) / ((10 : ℚ) ^ fracDs.length)
        match rest3 with
        | [] => some mant
        | 'e' :: rest4 => (parseExp rest4).map (fun e => mant * (10 : ℚ) ^ e)
        | 'E' :: rest4 => (parseExp rest4).map (fun e => mant * (10 : ℚ) ^ e)
        | _ => none
  | [] => if intDs.isEmpty then none else some (digitsToNat intDs : ℚ)
  | 'e' :: rest4 =>
      if intDs.isEmpty then none
      else (parseExp rest4).map (fun e => (digitsToNat intDs : ℚ) * (10 : ℚ) ^ e)
  | 'E' :: rest4 =>
      if intDs.isEmpty then none
      else (parseExp rest4).map (fun e => (digitsToNat intDs : ℚ) * (10 : ℚ) ^ e)
  | _ => none

/-- Python `float(s)` (returning `none` where Python raises
`ValueError`), for strings over the post-cleaning alphabet. -/
def pyFloat? (s : String) : Option ℚ :=
  match s.data with
  | '-' :: rest => (parseUnsignedFloat rest).map (fun q => -q)
  | cs => parseUnsignedFloat cs

/-- Python whitespace for `\s` / `str.strip` (ASCII fragment). -/
def isPySpace (c : Char) : Bool :=
  c = ' ' ∨ c = '\t' ∨ c = '\n' ∨ c = '\r' ∨ c = '\x0b' ∨ c = '\x0c'

/-- The two `re.sub` cleaning passes of `parse_number`:
`re.sub(r"[,\s]", "", s)` then `re.sub(r"[^\d\.\-eE]", "", s)`. -/
def cleanNumberToken (s : String) : String :=
  let s1 := s.data.filter (fun c => ¬(c = ',' ∨ isPySpace c))
  let s2 := s1.filter (fun c => c.isDigit ∨ c = '.' ∨ c = '-' ∨ c = 'e' ∨ c = 'E')
  String.mk s2

/-! ## `str(...)` of a Python value (needed because `parse_number` calls
`str(s)` on whatever it is given, including JSON-decoded values). -/

/-- Multiplicity of a prime `p ≥ 2` in `n` (the fuel `n` bounds the
division count, which is at most `log2 n`). -/
def factorMultF : ℕ → ℕ → ℕ → ℕ
  | 0, _, _ => 0
  | fuel + 1, p, n =>
    if 2 ≤ p ∧ 1 ≤ n ∧ n % p = 0 then 1 + factorMultF fuel p (n / p) else 0

def factorMult (p n : ℕ) : ℕ := factorMultF n p n

/-- Decimal rendering of a rational with a terminating decimal expansion,
in Python `repr(float)` style (`500.0`, `1.5`, `-0.05`).  Rationals whose
denominator is not of the form `2^a * 5^b` cannot arise from parsing
decimal literals; they are rendered with a trailing slash marker (never
reached by the pipeline). -/
def floatRepr (q : ℚ) : String :=
  let n := q.num
  let d := q.den
  let k := max (factorMult 2 d) (factorMult 5 d)
  if d ∣ 10 ^ k then
    let scaled := n.natAbs * (10 ^ k / d)
    let ip := scaled / 10 ^ k
    let fr := scaled % 10 ^ k
    let frDigits := (Nat.toDigits 10 fr).map id
    let padded := List.replicate (k - frDigits.length) '0' ++ frDigits
    let trimmed := (padded.reverse.dropWhile (· = '0')).reverse
    let fracStr := if trimmed.isEmpty then "0" else String.mk trimmed
    (if n < 0 then "-" else "") ++ toString ip ++ "." ++ fracStr
  else (if n < 0 then "-" else "") ++ toString n.natAbs ++ "/" ++ toString d

/-- Python `repr` of a string (single quotes). -/
def pyQuote (s : String) : String :=
  String.mk ('\x27' :: s.data ++ ['\x27'])

/-- Nesting-depth fuel for rendering `PyVal`s.  Python itself cannot
build or print values nested beyond its recursion limit; every value in
the modelled pipeline has depth at most 5, so the bound is never hit. -/
def PY_DEPTH_FUEL : ℕ := 32

/-- `str(v)` / `repr(v)` in one function (`asRepr` selects `repr`, which
only differs on strings: containers render their elements with
`repr`). -/
def pyValStrF : ℕ → Bool → PyVal → String
  | 0, _, _ => ""
  | fuel + 1, asRepr, v =>
    match v with
    | .null => "None"
    | .bool b => if b then "True" else "False"
    | .int n => toString n
    | .float q => floatRepr q
    | .str s => if asRepr then pyQuote s else s
    | .arr es => "[" ++ String.intercalate ", " (es.map (pyValStrF fuel true)) ++ "]"
    | .obj es => String.mk [Char.ofNat 123] ++
        String.intercalate ", "
          (es.map (fun kv => pyQuote kv.1 ++ ": " ++ pyValStrF fuel true kv.2)) ++
        String.mk [Char.ofNat 125]

/-- Python `str(v)`. -/
def pyStr (v : PyVal) : String := pyValStrF PY_DEPTH_FUEL false v

/-- `parse_number(s)` as written (identically) inside `summarize_chunk`
and `extract_structured_metrics`:

```python
def parse_number(s):
    if not s:
        return None
    s_clean = re.sub(r"[,\s]", "", str(s))
    s_clean = re.sub(r"[^\d\.\-eE]", "", s_clean)
    try:
        return float(s_clean)
    except Exception:
        return None
```
-/
def parse_number (v : PyVal) : Option ℚ :=
  if ¬pyTruthy v then none
  else pyFloat? (cleanNumberToken (pyStr v))

/-! ## `json.loads` -/

def lbrace : Char := Char.ofNat 123
def rbrace : Char := Char.ofNat 125

def isJsonWs (c : Char) : Bool :=
  c = ' ' ∨ c = '\t' ∨ c = '\n' ∨ c = '\r'

def jsonWs (cs : List Char) : List Char := cs.dropWhile isJsonWs

def hexDigit? (c : Char) : Option ℕ :=
  if c.isDigit then some (c.toNat - 48)
  else if 'a' ≤ c ∧ c ≤ 'f' then some (c.toNat - 87)
  else if 'A' ≤ c ∧ c ≤ 'F' then some (c.toNat - 55)
  else none

/-- JSON string body (the opening quote already consumed); the fuel,
consumed one character at a time, is the remaining input length plus
one. -/
def parseJStringF : ℕ → List Char → List Char → Option (String × List Char)
  | 0, _, _ => none
  | fuel + 1, cs, acc =>
    match cs with
    | [] => none
    | '"' :: rest => some (String.mk acc.reverse, rest)
    | '\\' :: rest =>
      match rest with
      | '"' :: r => parseJStringF fuel r ('"' :: acc)
      | '\\' :: r => parseJStringF fuel r ('\\' :: acc)
      | '/' :: r => parseJStringF fuel r ('/' :: acc)
      | 'b' :: r => parseJStringF fuel r ('\x08' :: acc)
      | 'f' :: r => parseJStringF fuel r ('\x0c' :: acc)
      | 'n' :: r => parseJStringF fuel r ('\n' :: acc)
      | 'r' :: r => parseJStringF fuel r ('\r' :: acc)
      | 't' :: r => parseJStringF fuel r ('\t' :: acc)
      | 'u' :: h1 :: h2 :: h3 :: h4 :: r =>
        match hexDigit? h1, hexDigit? h2, hexDigit? h3, hexDigit? h4 with
        | some aa, some bb, some cc, some dd =>
          parseJStringF fuel r (Char.ofNat (((aa * 16 + bb) * 16 + cc) * 16 + dd) :: acc)
        | _, _, _, _ => none
      | _ => none
    | c :: rest => parseJStringF fuel rest (c :: acc)

def parseJStringAux (cs : List Char) (acc : List Char) : Option (String × List Char) :=
  parseJStringF (cs.length + 1) cs acc

/-- JSON number literal: `-?(0|[1-9][0-9]*)(\.[0-9]+)?([eE][+-]?[0-9]+)?`;
decoded by Python to `int` when it has neither fraction nor exponent,
`float` otherwise. -/
def parseJNum (cs : List Char) : Option (PyVal × List Char) :=
  let sign : ℤ := if cs.headD ' ' = '-' then -1 else 1
  let cs1 := if cs.headD ' ' = '-' then cs.tail else cs
  let intDs := cs1.takeWhile Char.isDigit
  let rest1 := cs1.dropWhile Char.isDigit
  if intDs.isEmpty then none
  else if intDs.length > 1 ∧ intDs.headD ' ' = '0' then none
  else
    let ipart : ℤ := (digitsToNat intDs : ℤ)
    match rest1 with
    | '.' :: rest2 =>
      let fracDs := rest2.takeWhile Char.isDigit
      let rest3 := rest2.dropWhile Char.isDigit
      if fracDs.isEmpty then none
      else
        let mant : ℚ := (ipart : ℚ) + (digitsToNat fracDs : ℚ) / (10 : ℚ) ^ fracDs.length
        match rest3 with
        | 'e' :: rest4 =>
          match rest4 with
          | '+' :: r5 =>
            let eds := r5.takeWhile Char.isDigit
            if eds.isEmpty then none
            else some (.float ((sign : ℚ) * mant * (10 : ℚ) ^ (digitsToNat eds : ℤ)), r5.dropWhile Char.isDigit)
          | '-' :: r5 =>
            let eds := r5.takeWhile Char.isDigit
            if eds.isEmpty then none
            else some (.float ((sign : ℚ) * mant * (10 : ℚ) ^ (-(digitsToNat eds : ℤ))), r5.dropWhile Char.isDigit)
          | _ =>
            let eds := rest4.takeWhile Char.isDigit
            if eds.isEmpty then none
            else some (.float ((sign : ℚ) * mant * (10 : ℚ) ^ (digitsToNat eds : ℤ)), rest4.dropWhile Char.isDigit)
        | 'E' :: rest4 =>
          match rest4 with
          | '+' :: r5 =>
            let eds := r5.takeWhile Char.isDigit
            if eds.isEmpty then none
            else some (.float ((sign : ℚ) * mant * (10 : ℚ) ^ (digitsToNat eds : ℤ)), r5.dropWhile Char.isDigit)
          | '-' :: r5 =>
            let eds := r5.takeWhile Char.isDigit
            if eds.isEmpty then none
            else some (.float ((sign : ℚ) * mant * (10 : ℚ) ^ (-(digitsToNat eds : ℤ))), r5.dropWhile Char.isDigit)
          | _ =>
            let eds := rest4.takeWhile Char.isDigit
            if eds.isEmpty then none
            else some (.float ((sign : ℚ) * mant * (10 : ℚ) ^ (digitsToNat eds : ℤ)), rest4.dropWhile Char.isDigit)
        | _ => some (.float ((sign : ℚ) * mant), rest3)
    | 'e' :: rest4 =>
      match rest4 with
      | '+' :: r5 =>
        let eds := r5.takeWhile Char.isDigit
        if eds.isEmpty then none
        else some (.float ((sign : ℚ) * (ipart : ℚ) * (10 : ℚ) ^ (digitsToNat eds : ℤ)), r5.dropWhile Char.isDigit)
      | '-' :: r5 =>
        let eds := r5.takeWhile Char.isDigit
        if eds.isEmpty then none
        else some (.float ((sign : ℚ) * (ipart : ℚ) * (10 : ℚ) ^ (-(digitsToNat eds : ℤ))), r5.dropWhile Char.isDigit)
      | _ =>
        let eds := rest4.takeWhile Char.isDigit
        if eds.isEmpty then none
        else some (.float ((sign : ℚ) * (ipart : ℚ) * (10 : ℚ) ^ (digitsToNat eds : ℤ)), rest4.dropWhile Char.isDigit)
    | 'E' :: rest4 =>
      match rest4 with
      | '+' :: r5 =>
        let eds := r5.takeWhile Char.isDigit
        if eds.isEmpty then none
        else some (.float ((sign : ℚ) * (ipart : ℚ) * (10 : ℚ) ^ (digitsToNat eds : ℤ)), r5.dropWhile Char.isDigit)
      | '-' :: r5 =>
        let eds := r5.takeWhile Char.isDigit
        if eds.isEmpty then none
        else some (.float ((sign : ℚ) * (ipart : ℚ) * (10 : ℚ) ^ (-(digitsToNat eds : ℤ))), r5.dropWhile Char.isDigit)
      | _ =>
        let eds := rest4.takeWhile Char.isDigit
        if eds.isEmpty then none
        else some (.float ((sign : ℚ) * (ipart : ℚ) * (10 : ℚ) ^ (digitsToNat eds : ℤ)), rest4.dropWhile Char.isDigit)
    | _ => some (.int (sign * ipart), rest1)

/-- Python's object construction from parsed pairs (`d[k] = v` in
document order): a duplicated key keeps its first position and its last
value. -/
def objFromPairs (pairs : List (String × PyVal)) : PyDict :=
  pairs.foldl (fun d kv => dinsert d kv.1 kv.2) []

mutual

/-- One JSON value (leading whitespace allowed), returning the rest. -/
def parseJVal : ℕ → List Char → Option (PyVal × List Char)
  | 0, _ => none
  | fuel + 1, cs =>
    match jsonWs cs with
    | 'n' :: 'u' :: 'l' :: 'l' :: rest => some (.null, rest)
    | 't' :: 'r' :: 'u' :: 'e' :: rest => some (.bool true, rest)
    | 'f' :: 'a' :: 'l' :: 's' :: 'e' :: rest => some (.bool false, rest)
    | '"' :: rest => (parseJStringAux rest []).map (fun p => (.str p.1, p.2))
    | '[' :: rest =>
      match jsonWs rest with
      | ']' :: rest2 => some (.arr [], rest2)
      | rest2 => (parseJArrItems fuel rest2).map (fun p => (.arr p.1, p.2))
    | c :: rest =>
      if c = lbrace then
        match jsonWs rest with
        | rest2 =>
          if rest2.headD ' ' = rbrace then some (.obj [], rest2.tail)
          else (parseJObjItems fuel rest2).map (fun p => (.obj (objFromPairs p.1), p.2))
      else if c = '-' ∨ c.isDigit then parseJNum (c :: rest)
      else none
    | [] => none

/-- Comma-separated array items, ending at `]` (duplicates of position
are kept in order). -/
def parseJArrItems : ℕ → List Char → Option (List PyVal × List Char)
  | 0, _ => none
  | fuel + 1, cs =>
    match parseJVal fuel cs with
    | none => none
    | some (v, rest) =>
      match jsonWs rest with
      | ',' :: rest2 => (parseJArrItems fuel rest2).map (fun p => (v :: p.1, p.2))
      | ']' :: rest2 => some ([v], rest2)
      | _ => none

/-- Comma-separated `"key": value` object items ending at the closing
brace, returned as raw pairs in document order. -/
def parseJObjItems : ℕ → List Char → Option (List (String × PyVal) × List Char)
  | 0, _ => none
  | fuel + 1, cs =>
    match jsonWs cs with
    | '"' :: rest =>
      match parseJStringAux rest [] with
      | none => none
      | some (k, rest2) =>
        match jsonWs rest2 with
        | ':' :: rest3 =>
          match parseJVal fuel rest3 with
          | none => none
          | some (v, rest4) =>
            match jsonWs rest4 with
            | ',' :: rest5 =>
              (parseJObjItems fuel rest5).map (fun p => ((k, v) :: p.1, p.2))
            | c :: rest5 =>
              if c = rbrace then some ([(k, v)], rest5) else none
            | [] => none
        | _ => none
    | _ => none

end

/-- `json.loads(s)`: one JSON document, with only whitespace allowed
after it (`none` models `json.JSONDecodeError`). -/
def pyJsonLoads (s : String) : Option PyVal :=
  match parseJVal (s.length + 1) s.data with
  | some (v, rest) => if (jsonWs rest).isEmpty then some v else none
  | none => none

/-! ## `json.dumps(..., ensure_ascii=False)` -/

def jsonEscapeChar (c : Char) : List Char :=
  if c = '"' then ['\\', '"']
  else if c = '\\' then ['\\', '\\']
  else if c = '\n' then ['\\', 'n']
  else if c = '\t' then ['\\', 't']
  else if c = '\r' then ['\\', 'r']
  else if c = '\x08' then ['\\', 'b']
  else if c = '\x0c' then ['\\', 'f']
  else if c.toNat < 32 then
    let hx := fun (n : ℕ) => if n < 10 then Char.ofNat (48 + n) else Char.ofNat (87 + n)
    ['\\', 'u', '0', '0', hx (c.toNat / 16), hx (c.toNat % 16)]
  else [c]

def jsonDumpStr (s : String) : String :=
  String.mk ('"' :: (s.data.map jsonEscapeChar).flatten ++ ['"'])

/-- `json.dumps(v, ensure_ascii=False)` with the default `", "` / `": "`
separators; the nesting fuel is never hit (see `PY_DEPTH_FUEL`). -/
def pyJsonDumpsF : ℕ → PyVal → String
  | 0, _ => ""
  | fuel + 1, v =>
    match v with
    | .null => "null"
    | .bool b => if b then "true" else "false"
    | .int n => toString n
    | .float q => floatRepr q
    | .str s => jsonDumpStr s
    | .arr es => "[" ++ String.intercalate ", " (es.map (pyJsonDumpsF fuel)) ++ "]"
    | .obj es => String.mk [lbrace] ++
        String.intercalate ", "
          (es.map (fun kv => jsonDumpStr kv.1 ++ ": " ++ pyJsonDumpsF fuel kv.2)) ++
        String.mk [rbrace]

def pyJsonDumps (v : PyVal) : String := pyJsonDumpsF PY_DEPTH_FUEL v

/-! ## Regular expressions

A small executable engine for the concrete patterns in
`ai_assistant.py`, with Python `re` semantics: leftmost match,
alternation tries the left branch first, `*`/`+` are greedy with
backtracking, `.` does not match a newline, and exactly one capturing
group per pattern.  All call sites in the source pass `re.IGNORECASE`;
this is modelled by matching against the lower-cased text (the patterns
themselves are lower case). -/

inductive RE : Type where
  | eps : RE
  | cls (f : Char → Bool) : RE
  | cat (a b : RE) : RE
  | alt (a b : RE) : RE
  | star (a : RE) : RE
  | grp (a : RE) : RE

/-- Structural size of a pattern, used to compute a sufficient fuel
bound for the matcher. -/
def reSize : RE → ℕ
  | .eps => 1
  | .cls _ => 1
  | .cat a b => reSize a + reSize b + 1
  | .alt a b => reSize a + reSize b + 1
  | .star a => reSize a + 1
  | .grp a => reSize a + 1

/-- Backtracking matcher in continuation style.  The state is the
remaining input and the capture of the (single) group, if taken.  The
fuel (decremented on every recursive call, making the recursion
structural) bounds the nesting depth of the match, which never exceeds
the static pattern height plus one step per star iteration; star
iterations are forced to consume input, so `reSize + |input| + 8` fuel
(what `reSearch` supplies) is never exhausted for the source's patterns
(whose stars are never nested inside another star body). -/
def reM : ℕ → RE → List Char → Option (List Char) →
    (List Char → Option (List Char) → Option (Option (List Char))) →
    Option (Option (List Char))
  | 0, _, _, _, _ => none
  | fuel + 1, re, s, cap, k =>
    match re with
    | .eps => k s cap
    | .cls f =>
      match s with
      | [] => none
      | c :: rest => if f c then k rest cap else none
    | .cat a b => reM fuel a s cap (fun s2 cap2 => reM fuel b s2 cap2 k)
    | .alt a b => (reM fuel a s cap k).orElse (fun _ => reM fuel b s cap k)
    | .grp a =>
      reM fuel a s cap (fun s2 _ => k s2 (some (s.take (s.length - s2.length))))
    | .star a =>
      (reM fuel a s cap (fun s2 cap2 =>
        if s2.length < s.length then reM fuel (.star a) s2 cap2 k else none)).orElse
        (fun _ => k s cap)

/-- Try a match at each position, left to right (the semantics of
`re.findall(...)[0]` / truthiness of `re.findall`): `some cap` when a
match exists, where `cap` is the group capture of the leftmost match. -/
def reSearchAux (re : RE) (fz : ℕ) : List Char → Option (Option (List Char))
  | [] => reM fz re [] none (fun _ cap => some cap)
  | c :: rest =>
    match reM (fz + rest.length + 1) re (c :: rest) none (fun _ cap => some cap) with
    | some cap => some cap
    | none => reSearchAux re fz rest

/-- Lower-cased search (every `re.findall` call in the source passes
`re.IGNORECASE`). -/
def reSearch (re : RE) (s : String) : Option (Option String) :=
  (reSearchAux re (reSize re + 8) (s.data.map Char.toLower)).map (fun cap => cap.map String.mk)

/-- A literal (lower-case) string. -/
def rstr (s : String) : RE :=
  s.data.foldr (fun c r => .cat (.cls (fun x => x = c)) r) .eps

def ralts (rs : List RE) : RE := rs.foldr .alt (.cls (fun _ => false))

def rplus (a : RE) : RE := .cat a (.star a)

def ropt (a : RE) : RE := .alt a .eps

/-- `\s` (ASCII fragment of Python whitespace). -/
def rws : RE := .cls isPySpace

/-- `[0-9,\.]` -/
def rnumcls : RE := .cls (fun c => c.isDigit ∨ c = ',' ∨ c = '.')

/-- `.` (any character except newline). -/
def rany : RE := .cls (fun c => c ≠ '\n')

/-- `.*` -/
def rdotstar : RE := .star rany

def rcat (rs : List RE) : RE := rs.foldr .cat .eps

/-- Python `round(x, 2)` idealized to exact rationals: banker's rounding
(round half to even) of `x * 100`, divided by 100. -/
def roundHalfEven (q : ℚ) : ℤ :=
  let f := ⌊q⌋
  let r := q - (f : ℚ)
  if r < 1 / 2 then f
  else if 1 / 2 < r then f + 1
  else if f % 2 = 0 then f else f + 1

def pyRound2 (q : ℚ) : ℚ := ((roundHalfEven (q * 100) : ℚ)) / 100

/-- `startsList needle hay`: `hay` begins with `needle`. -/
def startsList : List Char → List Char → Bool
  | [], _ => true
  | _ :: _, [] => false
  | a :: as, b :: bs => a == b && startsList as bs

/-- Python's substring test `needle in hay`. -/
def containsSub (needle : List Char) : List Char → Bool
  | [] => needle.isEmpty
  | c :: rest => startsList needle (c :: rest) || containsSub needle rest

/-- Python `str.strip()` (ASCII whitespace fragment). -/
def pyStrip (s : String) : String :=
  String.mk (((s.data.dropWhile isPySpace).reverse.dropWhile isPySpace).reverse)

/-! ## `GPTComplianceAgent.summarize_chunk`

Despite its docstring, `summarize_chunk` performs no LLM call: it runs
eight labeled regex patterns over the chunk, collects the parsed numbers
into `key_numbers`, takes the first line (clipped to 100 characters) as
`title`, collects up to three keyword-bearing lines as `notes`, and
returns the JSON dump of that record. -/

/-- Words joined by `\s+`. -/
def rlbl : List String → RE
  | [] => .eps
  | [w] => rstr w
  | w :: rest => rcat [rstr w, rplus rws, rlbl rest]

/-- `[:\s=]+` -/
def rsepEq : RE := rplus (.cls (fun c => c = ':' ∨ isPySpace c ∨ c = '='))

/-- `([0-9,\.]+(?:\s+(?:million|billion|thousand|m|b|k))?)` -/
def rnumSuffixGrp : RE :=
  .grp (rcat [rplus rnumcls,
    ropt (rcat [rplus rws,
      ralts [rstr "million", rstr "billion", rstr "thousand", rstr "m", rstr "b", rstr "k"]])])

/-- `(?:LABELS)[:\s=]+\s*(NUMBER_TOKEN)` -/
def chunkPat (labels : List RE) : RE :=
  rcat [ralts labels, rsepEq, .star rws, rnumSuffixGrp]

/-- The `patterns` dict of `summarize_chunk`, in insertion order. -/
def chunk_patterns : List (String × RE) :=
  [("Capital", chunkPat [rlbl ["total", "capital"], rlbl ["shareholders", "equity"],
      rlbl ["total", "equity"]]),
   ("Liabilities", chunkPat [rlbl ["total", "liabilities"]]),
   ("GWP", chunkPat [rlbl ["gross", "written", "premium"], rstr "gwp"]),
   ("Net Claims Paid", chunkPat [rlbl ["net", "claims", "paid"], rlbl ["net", "claims"]]),
   ("Investment Income", chunkPat [rlbl ["investment", "income"], rlbl ["investment", "returns"]]),
   ("Commission Expense", chunkPat [rlbl ["commission", "expense"], rstr "commissions"]),
   ("Operating Expenses", chunkPat [rlbl ["operating", "expense"], rlbl ["operating", "costs"]]),
   ("Profit Before Tax", chunkPat [rlbl ["profit", "before", "tax"], rstr "pbt"])]

def note_keywords : List String := ["note", "remark", "disclosure", "important"]

def summarize_chunk (chunk_text : String) : String :=
  let key_numbers : PyDict := chunk_patterns.foldl (fun acc kv =>
    match reSearch kv.2 chunk_text with
    | some (some captured) =>
      match parse_number (.str captured) with
      | some q => dinsert acc kv.1 (.float q)
      | none => acc
    | _ => acc) []
  let lines := chunk_text.splitOn "\n"
  let title := (lines.headD "Financial Data").take 100
  let notes := (lines.filter (fun line =>
    note_keywords.any (fun kw => containsSub kw.data (line.data.map Char.toLower)))).map pyStrip
  pyJsonDumps (.obj [("title", .str title), ("key_numbers", .obj key_numbers),
    ("notes", .arr ((notes.take 3).map .str)), ("missing_items", .arr [])])

/-! ## `GPTComplianceAgent.extract_structured_metrics`

Tier 1 parses each chunk summary as JSON and picks values out of its
`key_numbers` dict (first truthy value per canonical key wins, guarded by
`key not in extracted_metrics`).  Tier 2 runs regex patterns over the
newline-joined summaries for the keys still unresolved.  Then the
solvency ratio is derived from capital and liabilities, and the result is
the canonical 13-key dict with `None` for anything unresolved. -/

def schema_keys : List String :=
  ["capital", "liabilities", "solvency_ratio", "gwp", "net_claims_paid",
   "investment_income_total", "commission_expense_total", "operating_expenses_total",
   "profit_before_tax", "contingency_reserve_statutory", "ibnr_reserve_gross",
   "related_party_net_exposure", "auditors_unqualified_opinion"]

/-- `val = parse_number(v); if val and key not in extracted: extracted[key] = val`
(`if val` is Python truthiness: a parse failure or a parsed `0.0` is
skipped). -/
def knSet (acc : PyDict) (key : String) (v : PyVal) : PyDict :=
  match parse_number v with
  | some q => if q ≠ 0 ∧ ¬dcontains acc key then dinsert acc key (.float q) else acc
  | none => acc

/-- The `elif` chain mapping a `key_numbers` key (lower-cased) to the
canonical key its value is stored under (`none`: no branch matches).
The literal substring test `"gross.*written" in k_lower` is as written in
the source. -/
def knBranchKey (k : String) : Option String :=
  let kl := k.data.map Char.toLower
  let has := fun (w : String) => containsSub w.data kl
  if has "capital" || has "equity" then some "capital"
  else if has "liabil" then some "liabilities"
  else if has "gwp" || has "gross.*written" then some "gwp"
  else if has "claims" && has "paid" then some "net_claims_paid"
  else if has "investment" && has "income" then some "investment_income_total"
  else if has "commission" then some "commission_expense_total"
  else if has "operating" && has "expense" then some "operating_expenses_total"
  else if has "profit" && has "tax" then some "profit_before_tax"
  else none

/-- One `key_numbers` entry of the tier-1 loop. -/
def knFoldStep (a : PyDict) (kv : String × PyVal) : PyDict :=
  match knBranchKey kv.1 with
  | some key => knSet a key kv.2
  | none => a

/-- Tier 1 for one chunk summary: JSON-parse it and fold its
`key_numbers` entries (`if not summary: continue`; parse failures and
non-dict shapes contribute nothing). -/
def jsonTierChunk (acc : PyDict) (summary : String) : PyDict :=
  if summary = "" then acc
  else
    match pyJsonLoads summary with
    | some (.obj kvs) =>
      match dget? kvs "key_numbers" with
      | some (.obj kn) => kn.foldl knFoldStep acc
      | _ => acc
    | _ => acc

def jsonTier (summaries : List String) : PyDict := summaries.foldl jsonTierChunk []

/-- `KEY[:\s]+` -/
def rsep : RE := rplus (.cls (fun c => c = ':' ∨ isPySpace c))

/-- `PARTS[:\s]+([0-9,\.]+)` -/
def fpat (parts : List RE) : RE := rcat (parts ++ [rsep, .grp (rplus rnumcls)])

/-- The fallback `patterns` dict of `extract_structured_metrics`, in
insertion order. -/
def fallback_patterns : List (String × List RE) :=
  [("capital", [fpat [rstr "capital"], fpat [rstr "equity"],
      fpat [rstr "shareholders", rdotstar, rstr "equity"]]),
   ("liabilities", [fpat [rstr "liabilities"], fpat [rstr "total", rdotstar, rstr "liabilities"]]),
   ("gwp", [fpat [rstr "gwp"],
      fpat [rstr "gross", rdotstar, rstr "written", rdotstar, rstr "premium"]]),
   ("net_claims_paid", [fpat [rstr "net", rdotstar, rstr "claims", rdotstar, rstr "paid"],
      fpat [rstr "claims", rdotstar, rstr "paid"]]),
   ("investment_income_total", [fpat [rstr "investment", rdotstar, rstr "income"],
      fpat [rstr "total", rdotstar, rstr "investment", rdotstar, rstr "income"]]),
   ("commission_expense_total", [fpat [rstr "commission", rdotstar, rstr "expense"],
      fpat [rstr "commissions", rdotstar, rstr "paid"]]),
   ("operating_expenses_total", [fpat [rstr "operating", rdotstar, rstr "expense"],
      fpat [rstr "total", rdotstar, rstr "operating", rdotstar, rstr "expense"]]),
   ("profit_before_tax", [fpat [rstr "profit", rdotstar, rstr "before", rdotstar, rstr "tax"],
      fpat [rstr "pbt"]]),
   ("auditors_unqualified_opinion",
     [rcat [rstr "unqualified", rdotstar, rstr "opinion"],
      rcat [rstr "auditors", rdotstar, rstr "opinion", rdotstar, rstr "unqualified"]])]

/-- The inner pattern loop for a numeric key: first pattern whose first
match parses to a number wins (`break`); a match that fails to parse
falls through to the next pattern. -/
def fallbackNumeric (joined : String) : List RE → Option ℚ
  | [] => none
  | re :: rest =>
    match reSearch re joined with
    | some (some cap) =>
      match parse_number (.str cap) with
      | some q => some q
      | none => fallbackNumeric joined rest
    | _ => fallbackNumeric joined rest

/-- One key of the fallback tier (skipped when tier 1 already resolved
it; the `auditors_unqualified_opinion` patterns have no capture group and
set `True` when any of them matches). -/
def fallbackStep (joined : String) (acc : PyDict) (key : String) (pats : List RE) : PyDict :=
  if dcontains acc key then acc
  else if key = "auditors_unqualified_opinion" then
    if pats.any (fun re => (reSearch re joined).isSome) then dinsert acc key (.bool true)
    else acc
  else
    match fallbackNumeric joined pats with
    | some q => dinsert acc key (.float q)
    | none => acc

/-- `all_summaries = "\n".join(chunk_summaries)` then the fallback
pattern loop. -/
def fallbackTier (summaries : List String) (acc : PyDict) : PyDict :=
  let joined := String.intercalate "\n" summaries
  fallback_patterns.foldl (fun a kv => fallbackStep joined a kv.1 kv.2) acc

/-- The solvency-ratio derivation: whenever both `capital` and
`liabilities` are present (their stored values are always floats) and
liabilities is nonzero, `solvency_ratio` is set to
`round(((capital - liabilities) / liabilities) * 100, 2)`. -/
def deriveSolvency (acc : PyDict) : PyDict :=
  if dcontains acc "capital" ∧ dcontains acc "liabilities" then
    match dget? acc "capital", dget? acc "liabilities" with
    | some (.float c), some (.float l) =>
      if l ≠ 0 then dinsert acc "solvency_ratio" (.float (pyRound2 (((c - l) / l) * 100)))
      else acc
    | _, _ => acc
  else acc

/-- The tiers before the derivation step. -/
def extractedPre (summaries : List String) : PyDict :=
  fallbackTier summaries (jsonTier summaries)

/-- `{k: None for k in schema_keys}`. -/
def schemaNulls : PyDict := schema_keys.map (fun k => (k, PyVal.null))

/-- `extract_structured_metrics`: result is
`{k: None for k in schema_keys}` updated with the extracted values. -/
def extract_structured_metrics (chunk_summaries : List String) : PyDict :=
  dupdate schemaNulls (deriveSolvency (extractedPre chunk_summaries))

/-! ## `GPTComplianceAgent._chunk_text`

`re.split(r"\n{2,}", text)` into paragraphs, then a greedy packing loop
that flushes the current group when adding the next paragraph (counted as
`len(p) + 2`) would exceed `max_chars` and the group is nonempty. -/

/-- `re.split(r"\n{2,}", text)`: a separator is a maximal run of two or
more newlines.  Each step consumes at least one character, so fuel
`|text| + 1` is never exhausted. -/
def paraAux : ℕ → List Char → List Char → List (List Char)
  | 0, cs, cur => [cur.reverse ++ cs]
  | fuel + 1, cs, cur =>
    match cs with
    | [] => [cur.reverse]
    | c :: rest =>
      if c = '\n' ∧ rest.headD ' ' = '\n' then
        cur.reverse :: paraAux fuel (rest.tail.dropWhile (fun x => x = '\n')) []
      else paraAux fuel rest (c :: cur)

def splitParas (s : String) : List String :=
  (paraAux (s.length + 1) s.data []).map String.mk

/-- `"\n\n".join(...)`. -/
def joinParas : List String → String
  | [] => ""
  | [p] => p
  | p :: rest => p ++ "\n\n" ++ joinParas rest

/-- The packing loop (`current` / `current_len` accumulators; Python
appends `"\n\n".join(current)` to `chunks` on flush and once at the
end). -/
def chunkLoop (maxChars : ℕ) : List String → List String → ℕ → List String
  | [], current, _ => if current.isEmpty then [] else [joinParas current]
  | p :: ps, current, currentLen =>
    let plen := p.length + 2
    if maxChars < currentLen + plen ∧ ¬current.isEmpty then
      joinParas current :: chunkLoop maxChars ps [p] plen
    else chunkLoop maxChars ps (current ++ [p]) (currentLen + plen)

/-- `_chunk_text(text, max_chars)` (`if not text: return []`). -/
def chunk_text (text : String) (maxChars : ℕ) : List String :=
  if text = "" then [] else chunkLoop maxChars (splitParas text) [] 0

/-- `CHUNK_MAX_CHARS` default (`GPT_CHUNK_MAX_CHARS` unset). -/
def CHUNK_MAX_CHARS : ℕ := 3000

/-! ## `GPTComplianceAgent._call_gpt` (the LLM client)

The network is modelled by an environment: the credentials that
`_get_bearer_token()` / `GEMINI_API_KEY` would yield, the outcome of each
`requests.post` (indexed by prompt, candidate model and attempt number,
with attempt `0` standing for the single attempt per exact model id in
the discovery loop), and the outcome of the model-list request.  Every
exception path of the Python code is a `none`/default in the model, so
the modelled function is total — mirroring the source's catch-all
handlers, whose only failure mode is returning `""`. -/

inductive PostOutcome : Type where
  | exn : PostOutcome
  | resp (status : ℕ) (body : Option PyVal) : PostOutcome

structure LlmEnv : Type where
  bearer : Option String
  apiKey : String
  post : String → String → ℕ → PostOutcome
  modelsResp : Option (List String)

def noCreds (env : LlmEnv) : Prop := env.bearer = none ∧ env.apiKey = ""

/-- The response-shape walk of `_invoke_once` on a 200-status JSON body:
`candidates[0].content.parts[0].text`, returned stripped when truthy;
every type mismatch raises `AttributeError` inside the `try` (or falls
through to the `finishReason` check) and yields `None`. -/
def invokeParseResp : PyVal → Option String
  | .obj kvs =>
    match (dget? kvs "candidates").getD (.arr []) with
    | .arr (c0 :: _) =>
      match c0 with
      | .obj c0kvs =>
        match (dget? c0kvs "content").getD (.obj []) with
        | .obj ckvs =>
          match (dget? ckvs "parts").getD (.arr []) with
          | .arr (p0 :: _) =>
            match p0 with
            | .obj pkvs =>
              let text := (dget? pkvs "text").getD (.str "")
              if pyTruthy text then some (pyStrip (pyStr text)) else none
            | _ => none
          | _ => none
        | _ => none
      | _ => none
    | _ => none
  | _ => none

/-- `_invoke_once`: fails fast without credentials, then one HTTP post;
non-200, request exceptions and body-parse failures all yield `None`. -/
def invokeOnce (env : LlmEnv) (prompt candidate : String) (attempt : ℕ) : Option String :=
  if env.bearer.isNone ∧ env.apiKey = "" then none
  else
    match env.post prompt candidate attempt with
    | .exn => none
    | .resp status body =>
      if status ≠ 200 then none
      else
        match body with
        | none => none
        | some j => invokeParseResp j

/-- `_list_gemini_models` raises without credentials; otherwise its
outcome is the environment's. -/
def listModelsResult (env : LlmEnv) : Option (List String) :=
  if env.bearer.isNone ∧ env.apiKey = "" then none else env.modelsResp

/-- The chat-messages flattening at the top of `_call_gpt`. -/
def promptOf (messages : List (String × String)) : String :=
  String.intercalate "\n\n" (messages.map (fun m =>
    if m.1 ≠ "" then "[" ++ (m.1.map Char.toUpper) ++ "]\n" ++ m.2 ++ "\n" else m.2))

/-- `if res: return res` — an empty-string result does not end the retry
loop. -/
def truthyRes (r : Option String) : Option String :=
  r.bind (fun s => if s = "" then none else some s)

/-- `_call_gpt`: candidates `model` and `models/<model>`, `retries`
attempts each; then one attempt per discovered model id; `""` when all
fail. -/
def call_gpt (env : LlmEnv) (retries : ℕ) (selfModel : String)
    (modelOverride : Option String) (messages : List (String × String)) : String :=
  let prompt := promptOf messages
  let m := modelOverride.getD selfModel
  match [m, "models/" ++ m].findSome? (fun cand =>
      (List.range retries).findSome? (fun i => truthyRes (invokeOnce env prompt cand (i + 1)))) with
  | some r => r
  | none =>
    match listModelsResult env with
    | some avail =>
      match avail.findSome? (fun exact => truthyRes (invokeOnce env prompt exact 0)) with
      | some r => r
      | none => ""
    | none => ""

/-! ## `GPTComplianceAgent.synthesize_summaries` and `summarize_document` -/

/-- First index of a character (`str.find`, with `none` for -1). -/
def idxOfChar (cs : List Char) (c : Char) : Option ℕ :=
  cs.findIdx? (fun x => x = c)

/-- Last index of a character (`str.rfind`, with `none` for -1). -/
def lastIdxOfChar (cs : List Char) (c : Char) : Option ℕ :=
  (idxOfChar cs.reverse c).map (fun i => cs.length - 1 - i)

/-- The fallback value of `synthesize_summaries` when no JSON object can
be carved out of the LLM output. -/
def synthDefault (out : String) : PyVal :=
  .obj [("narrative", .str (pyStrip out)), ("metrics", .obj []),
    ("recommendations", .arr []), ("missing_items", .arr []), ("confidence", .null)]

def synthesize_summaries (env : LlmEnv) (retries : ℕ) (selfModel : String)
    (summaries : List String) : PyVal :=
  let system := "You are an expert regulator-level summarizer. Combine the provided chunk JSON summaries into a single comprehensive summary. Extract and reconcile numeric values, indicate conflicts, and list missing items."
  let user := "Here are chunk summaries (JSON objects or text). Combine and produce a final JSON with keys:\nnarrative (string), metrics (dict), recommendations (list), missing_items (list), confidence (0-100 number)\n\nChunk summaries:\n" ++ String.intercalate "\n\n" summaries
  let out := call_gpt env retries selfModel none [("system", system), ("user", user)]
  match idxOfChar out.data lbrace, lastIdxOfChar out.data rbrace with
  | some st, some en =>
    match pyJsonLoads (String.mk ((out.data.drop st).take (en + 1 - st))) with
    | some v => v
    | none => synthDefault out
  | _, _ => synthDefault out

/-- `dict.get(k, default)`. -/
def pyGet (v : PyVal) (k : String) (dflt : PyVal) : PyVal :=
  match v with
  | .obj kvs => (dget? kvs k).getD dflt
  | _ => dflt

/-- The `FinancialSummary` dataclass (fields kept as the Python values
they hold). -/
structure FinancialSummary : Type where
  document_title : Option String
  narrative : PyVal
  metrics : PyVal
  recommendations : PyVal
  missing_items : PyVal
  confidence : PyVal
  raw_chunk_summaries : List String

/-- The per-chunk summarization of `summarize_document`: `summarize_chunk`
over each chunk, keeping truthy results.  (With the default worker-pool
size of 1, `as_completed` yields futures in submission order, so the list
is in document order; `summarize_chunk` never raises in the model, as in
the source it has no raising path.) -/
def chunkSummariesOf (text : String) : List String :=
  ((chunk_text text CHUNK_MAX_CHARS).map summarize_chunk).filter (fun s => s ≠ "")

/-- `summarize_document`, taking the already-extracted text
(`extract_text_from_pdf` reduces unreadable or empty PDF bytes to `""`
via its catch-all handler).  The result is `none` exactly on the paths
where the Python raises: `synth["metrics"]` or its `"financials"` member
being a non-dict makes `.setdefault(...)/.update(...)` raise
`AttributeError`. -/
def summarize_document (env : LlmEnv) (retries : ℕ) (selfModel : String)
    (full_text : String) (document_title : Option String) : Option FinancialSummary :=
  if full_text = "" then
    some { document_title := document_title,
           narrative := .str "No text could be extracted from the provided PDF.",
           metrics := .obj [], recommendations := .arr [],
           missing_items := .arr [.str "document_text"], confidence := .null,
           raw_chunk_summaries := [] }
  else
    let chunk_summaries := chunkSummariesOf full_text
    let synth := synthesize_summaries env retries selfModel chunk_summaries
    let metrics0 := pyGet synth "metrics" (.obj [])
    let extracted := extract_structured_metrics chunk_summaries
    match metrics0 with
    | .obj kvs =>
      match (dget? kvs "financials").getD (.obj []) with
      | .obj fkvs =>
        some { document_title := document_title,
               narrative := pyGet synth "narrative" (.str ""),
               metrics := .obj (dinsert kvs "financials" (.obj (dupdate fkvs extracted))),
               recommendations := pyGet synth "recommendations" (.arr []),
               missing_items := pyGet synth "missing_items" (.arr []),
               confidence := pyGet synth "confidence" .null,
               raw_chunk_summaries := chunk_summaries }
      | _ => none
    | _ => none

/-! ## Characterization definitions used in theorem statements -/

/-- The canonical keys that tier 1 (the `key_numbers` branches) can
assign. -/
def jsonTierKeys : List String :=
  ["capital", "liabilities", "gwp", "net_claims_paid", "investment_income_total",
   "commission_expense_total", "operating_expenses_total", "profit_before_tax"]

/-- The canonical keys assignable before the solvency derivation (tier 1
keys plus the fallback-only `auditors_unqualified_opinion`). -/
def preKeys : List String := jsonTierKeys ++ ["auditors_unqualified_opinion"]

/-- The tier-1 candidate values a `key_numbers` entry list offers for
canonical key `key`: parsed, truthy values of the entries whose
(lower-cased) name falls into the branch for `key`, in entry order. -/
def knCands (key : String) (kn : List (String × PyVal)) : List ℚ :=
  kn.foldr (fun kv acc =>
    if knBranchKey kv.1 = some key then
      match parse_number kv.2 with
      | some q => if q ≠ 0 then q :: acc else acc
      | none => acc
    else acc) []

/-- The ordered stream of tier-1 candidate values that one chunk summary
offers for canonical key `key`. -/
def chunkNumCandidates (key : String) (summary : String) : List ℚ :=
  if summary = "" then []
  else
    match pyJsonLoads summary with
    | some (.obj kvs) =>
      match dget? kvs "key_numbers" with
      | some (.obj kn) => knCands key kn
      | _ => []
    | _ => []

/-- Tier-1 candidates for `key` across all chunks, in document order. -/
def jsonCandidates (key : String) (summaries : List String) : List ℚ :=
  (summaries.map (chunkNumCandidates key)).flatten

/-- The value a resolved entry of the extracted dict may hold. -/
def GoodVal (k : String) (v : PyVal) : Prop :=
  (∃ q, v = PyVal.float q) ∨ (k = "auditors_unqualified_opinion" ∧ v = PyVal.bool true)

/-- Well-formedness of an extracted dict: unique keys, all drawn from
`allowed`, with well-typed values. -/
def GoodDict (allowed : List String) (d : PyDict) : Prop :=
  (dkeys d).Nodup ∧ ∀ kv ∈ d, kv.1 ∈ allowed ∧ GoodVal kv.1 kv.2

/-- Before the solvency derivation the keys come from the nine
assignable keys. -/
def GoodPre (d : PyDict) : Prop := GoodDict preKeys d

/-- After the derivation, from the full canonical vocabulary. -/
def GoodSchema (d : PyDict) : Prop := GoodDict schema_keys d

/-- `synth["metrics"]` (and its `"financials"` member, when present) is a
dict — the condition under which `summarize_document` does not raise. -/
def synthMetricsOkB (env : LlmEnv) (retries : ℕ) (selfModel : String)
    (summaries : List String) : Bool :=
  match pyGet (synthesize_summaries env retries selfModel summaries) "metrics" (.obj []) with
  | .obj kvs =>
    match dget? kvs "financials" with
    | some (.obj _) => true
    | none => true
    | some _ => false
  | _ => false

/-- An environment with no credentials whose every request fails: what a
deployment without `GEMINI_API_KEY` or service-account credentials looks
like. -/
def envNoCreds : LlmEnv :=
  { bearer := none, apiKey := "", post := fun _ _ _ => .exn, modelsResp := none }

/-- The spec's end-to-end synthetic document (its two lines, in one
paragraph). -/
def c5doc : String :=
  "Total Equity (Capital): KShs 500,000 '000\nTotal Liabilities: KShs 400,000 '000"

/-- What `summarize_chunk` produces on `c5doc`: neither line matches any
labeled pattern (`total equity` is followed by ` (capital)` and
`total liabilities:` by `KShs`, so the `[0-9,\.]+` capture fails), hence
`key_numbers` is empty and only the first line survives as the title. -/
def c5sum : String :=
  "\x7b\"title\": \"Total Equity (Capital): KShs 500,000 '000\", \"key_numbers\": \x7b\x7d, \"notes\": [], \"missing_items\": []\x7d"

/-- A chunk summary whose `key_numbers` carries only `capital`. -/
def onlyCapital : String := "\x7b\"key_numbers\": \x7b\"capital\": 500\x7d\x7d"

/-- A later chunk summary offering a conflicting `capital`. -/
def laterCapital : String := "\x7b\"key_numbers\": \x7b\"capital\": 900\x7d\x7d"

/-- A chunk summary carrying only `gwp` out of the 13 canonical keys. -/
def onlyGwp : String := "\x7b\"key_numbers\": \x7b\"gwp\": 250\x7d\x7d"

/-- A chunk summary with literal capital and liabilities figures. -/
def capLiabChunk : String :=
  "\x7b\"key_numbers\": \x7b\"capital\": 1000000, \"liabilities\": 800000\x7d\x7d"

/-- A non-JSON chunk summary that only the regex fallback can read. -/
def regexOnlyChunk : String := "capital: 700"

/-- The byte budget the packing loop charges per paragraph
(`len(p) + 2`, accounting for the `"\n\n"` joins). -/
def paraLenSum (ps : List String) : ℕ := (ps.map (fun p => p.length + 2)).sum

/-- Projection: the `metrics` field of a pipeline result. -/
def docMetrics (r : Option FinancialSummary) : Option PyVal :=
  r.map (fun fs => fs.metrics)

/-- Projection: the `missing_items` field of a pipeline result. -/
def docMissing (r : Option FinancialSummary) : Option PyVal :=
  r.map (fun fs => fs.missing_items)

/-- Projection: one canonical key inside `metrics["financials"]` of a
pipeline result (`.str "absent"` marks a missing level). -/
def docFinancialsKey (key : String) (r : Option FinancialSummary) : Option PyVal :=
  r.map (fun fs => pyGet (pyGet fs.metrics "financials" (.str "absent")) key (.str "absent"))

/-! # Lemmas: the dict model -/

theorem dkeys_cons (kv : String × PyVal) (rest : PyDict) :
    dkeys (kv :: rest) = kv.1 :: dkeys rest := rfl

theorem dcontains_eq_isSome (d : PyDict) (k : String) :
    dcontains d k = (dget? d k).isSome := by
  induction d with
  | nil => rfl
  | cons kv rest ih => by_cases h : kv.1 = k <;> simp [dcontains, dget?, h, ih]

theorem dget?_eq_none_of_not_mem {e : PyDict} {k : String} (h : k ∉ dkeys e) :
    dget? e k = none := by
  induction e with
  | nil => rfl
  | cons kv rest ih =>
    rw [dkeys_cons] at h
    have h1 : kv.1 ≠ k := fun he => h (List.mem_cons.mpr (Or.inl he.symm))
    have h2 : k ∉ dkeys rest := fun he => h (List.mem_cons.mpr (Or.inr he))
    simp [dget?, h1, ih h2]

theorem dget?_dinsert_self (d : PyDict) (k : String) (v : PyVal) :
    dget? (dinsert d k v) k = some v := by
  induction d with
  | nil => simp [dinsert, dget?]
  | cons kv rest ih => by_cases h : kv.1 = k <;> simp [dinsert, dget?, h, ih]

theorem dget?_dinsert_ne (d : PyDict) (k k2 : String) (v : PyVal) (h : k2 ≠ k) :
    dget? (dinsert d k v) k2 = dget? d k2 := by
  induction d with
  | nil => simp [dinsert, dget?, Ne.symm h]
  | cons kv rest ih =>
    by_cases hh : kv.1 = k
    · have hne : kv.1 ≠ k2 := by rw [hh]; exact Ne.symm h
      simp [dinsert, dget?, hh, hne, Ne.symm h]
    · simp only [dinsert, if_neg hh]
      by_cases h2 : kv.1 = k2
      · simp [dget?, h2]
      · simp [dget?, h2, ih]

theorem dkeys_dinsert_mem (d : PyDict) (k : String) (v : PyVal)
    (h : k ∈ dkeys d) : dkeys (dinsert d k v) = dkeys d := by
  induction d with
  | nil => simp [dkeys] at h
  | cons kv rest ih =>
    by_cases hh : kv.1 = k
    · simp [dinsert, hh, dkeys]
    · rw [dkeys_cons] at h
      rcases List.mem_cons.mp h with h1 | h1
      · exact absurd h1.symm hh
      · simp only [dinsert, if_neg hh, dkeys_cons, ih h1]

theorem dkeys_dinsert_new (d : PyDict) (k : String) (v : PyVal)
    (h : k ∉ dkeys d) : dkeys (dinsert d k v) = dkeys d ++ [k] := by
  induction d with
  | nil => simp [dinsert, dkeys]
  | cons kv rest ih =>
    rw [dkeys_cons] at h
    have h1 : k ≠ kv.1 := fun he => h (List.mem_cons.mpr (Or.inl he))
    have h2 : k ∉ dkeys rest := fun he => h (List.mem_cons.mpr (Or.inr he))
    simp only [dinsert, if_neg (Ne.symm h1), dkeys_cons, ih h2, List.cons_append]

theorem mem_dkeys_dinsert (d : PyDict) (k k2 : String) (v : PyVal) :
    k2 ∈ dkeys (dinsert d k v) ↔ k2 ∈ dkeys d ∨ k2 = k := by
  by_cases hm : k ∈ dkeys d
  · rw [dkeys_dinsert_mem d k v hm]
    constructor
    · exact Or.inl
    · rintro (h | h)
      · exact h
      · rw [h]
        exact hm
  · rw [dkeys_dinsert_new d k v hm]
    simp

theorem nodup_dkeys_dinsert (d : PyDict) (k : String) (v : PyVal)
    (h : (dkeys d).Nodup) : (dkeys (dinsert d k v)).Nodup := by
  by_cases hm : k ∈ dkeys d
  · rw [dkeys_dinsert_mem d k v hm]
    exact h
  · rw [dkeys_dinsert_new d k v hm]
    simp [List.nodup_append, h, hm]

theorem mem_dinsert_val (d : PyDict) (k k2 : String) (v v2 : PyVal)
    (h : (k2, v2) ∈ dinsert d k v) : (k2, v2) ∈ d ∨ (k2 = k ∧ v2 = v) := by
  induction d with
  | nil =>
    simp [dinsert] at h
    exact Or.inr ⟨h.1, h.2⟩
  | cons kv rest ih =>
    by_cases hh : kv.1 = k
    · rw [show dinsert (kv :: rest) k v = (k, v) :: rest from by simp [dinsert, hh]] at h
      rcases List.mem_cons.mp h with h1 | h1
      · right
        exact ⟨congrArg Prod.fst h1, congrArg Prod.snd h1⟩
      · exact Or.inl (List.mem_cons.mpr (Or.inr h1))
    · rw [show dinsert (kv :: rest) k v = kv :: dinsert rest k v from by simp [dinsert, hh]] at h
      rcases List.mem_cons.mp h with h1 | h1
      · exact Or.inl (List.mem_cons.mpr (Or.inl h1))
      · rcases ih h1 with h2 | h2
        · exact Or.inl (List.mem_cons.mpr (Or.inr h2))
        · exact Or.inr h2

theorem dget?_dupdate (d e : PyDict) (k : String) (he : (dkeys e).Nodup) :
    dget? (dupdate d e) k = (dget? e k).orElse (fun _ => dget? d k) := by
  induction e generalizing d with
  | nil => simp [dupdate, dget?, Option.orElse]
  | cons kv rest ih =>
    have hstep : dupdate d (kv :: rest) = dupdate (dinsert d kv.1 kv.2) rest := rfl
    rw [dkeys_cons] at he
    have hnd := List.nodup_cons.mp he
    rw [hstep, ih _ hnd.2]
    by_cases h : kv.1 = k
    · have hnone : dget? rest k = none :=
        dget?_eq_none_of_not_mem (by rw [← h]; exact hnd.1)
      simp [dget?, h, hnone, h ▸ dget?_dinsert_self d kv.1 kv.2, Option.orElse]
    · simp [dget?, h, dget?_dinsert_ne d kv.1 k kv.2 (Ne.symm h)]

theorem dkeys_dupdate_subset (d e : PyDict) (h : ∀ k ∈ dkeys e, k ∈ dkeys d) :
    dkeys (dupdate d e) = dkeys d := by
  induction e generalizing d with
  | nil => rfl
  | cons kv rest ih =>
    have hstep : dupdate d (kv :: rest) = dupdate (dinsert d kv.1 kv.2) rest := rfl
    have hins : dkeys (dinsert d kv.1 kv.2) = dkeys d :=
      dkeys_dinsert_mem d kv.1 kv.2
        (h kv.1 (by rw [dkeys_cons]; exact List.mem_cons.mpr (Or.inl rfl)))
    rw [hstep,
      ih (dinsert d kv.1 kv.2) (fun k hk => by
        rw [hins]
        exact h k (by rw [dkeys_cons]; exact List.mem_cons.mpr (Or.inr hk))),
      hins]

theorem mem_dupdate_val (d e : PyDict) (k : String) (v : PyVal)
    (h : (k, v) ∈ dupdate d e) : (k, v) ∈ d ∨ (k, v) ∈ e := by
  induction e generalizing d with
  | nil => exact Or.inl h
  | cons kv rest ih =>
    have hstep : dupdate d (kv :: rest) = dupdate (dinsert d kv.1 kv.2) rest := rfl
    rw [hstep] at h
    rcases ih _ h with h2 | h2
    · rcases mem_dinsert_val d kv.1 k kv.2 v h2 with h3 | h3
      · exact Or.inl h3
      · right
        have hkv : (k, v) = kv := by
          rw [h3.1, h3.2]
        exact List.mem_cons.mpr (Or.inl hkv)
    · exact Or.inr (List.mem_cons.mpr (Or.inr h2))

/-! # Lemmas: tier 1 is a first-wins scan -/

theorem orElse_of_isSome {a : Option PyVal} {f : Unit → Option PyVal}
    (h : a.isSome) : a.orElse f = a := by
  cases a
  · simp at h
  · rfl

theorem orElse_of_none {a : Option PyVal} {f : Unit → Option PyVal}
    (h : a = none) : a.orElse f = f () := by
  rw [h]
  rfl

theorem knCands_cons (key : String) (kv : String × PyVal) (kn : List (String × PyVal)) :
    knCands key (kv :: kn) =
      if knBranchKey kv.1 = some key then
        match parse_number kv.2 with
        | some q => if q ≠ 0 then q :: knCands key kn else knCands key kn
        | none => knCands key kn
      else knCands key kn := rfl

/-- The entry loop of tier 1, per canonical key: an already-resolved key
is kept; otherwise the first truthy candidate in entry order is taken. -/
theorem knFold_first_wins (kn : List (String × PyVal)) (acc : PyDict) (k : String) :
    dget? (kn.foldl knFoldStep acc) k =
      (dget? acc k).orElse (fun _ => ((knCands k kn).head?).map PyVal.float) := by
  induction kn generalizing acc with
  | nil =>
    cases h : dget? acc k
    · simp [knCands, Option.orElse, h]
    · simp [knCands, Option.orElse, h]
  | cons kv rest ih =>
    rw [List.foldl_cons, ih (knFoldStep acc kv), knCands_cons]
    cases hb : knBranchKey kv.1 with
    | none => simp [knFoldStep, hb]
    | some key =>
      by_cases hkey : key = k
      · subst hkey
        simp only [hb, if_pos rfl]
        cases hp : parse_number kv.2 with
        | none => simp [knFoldStep, hb, knSet, hp]
        | some q =>
          by_cases hq : q = 0
          · simp [knFoldStep, hb, knSet, hp, hq]
          · by_cases hc : dcontains acc key = true
            · have hs : (dget? acc key).isSome := by rw [← dcontains_eq_isSome]; exact hc
              rw [show knFoldStep acc kv = acc from by simp [knFoldStep, hb, knSet, hp, hq, hc]]
              rw [orElse_of_isSome hs, orElse_of_isSome hs]
            · have hnone : dget? acc key = none := by
                cases hx : dget? acc key
                · rfl
                · rw [dcontains_eq_isSome, hx] at hc
                  simp at hc
              rw [show knFoldStep acc kv = dinsert acc key (.float q) from by
                simp [knFoldStep, hb, knSet, hp, hq, hc]]
              rw [orElse_of_isSome (by rw [dget?_dinsert_self]; rfl),
                dget?_dinsert_self, orElse_of_none hnone]
              simp [hq]
      · rw [if_neg (show ¬(some key = some k) from fun hx => hkey (Option.some.inj hx))]
        have hslot : dget? (knFoldStep acc kv) k = dget? acc k := by
          simp only [knFoldStep, hb, knSet]
          cases hp : parse_number kv.2 with
          | none => rfl
          | some q =>
            show dget? (if q ≠ 0 ∧ ¬dcontains acc key = true then
                dinsert acc key (PyVal.float q) else acc) k = dget? acc k
            by_cases hcond : q ≠ 0 ∧ ¬dcontains acc key = true
            · rw [if_pos hcond]
              exact dget?_dinsert_ne acc key k _ (Ne.symm hkey)
            · rw [if_neg hcond]
        rw [hslot]

/-- Tier 1 for one chunk: resolved keys kept, else first candidate of
that chunk. -/
theorem jsonTierChunk_first_wins (s : String) (acc : PyDict) (k : String) :
    dget? (jsonTierChunk acc s) k =
      (dget? acc k).orElse (fun _ => ((chunkNumCandidates k s).head?).map PyVal.float) := by
  have htriv : dget? acc k =
      (dget? acc k).orElse (fun _ => ((([] : List ℚ)).head?).map PyVal.float) := by
    cases h : dget? acc k <;> simp [Option.orElse, h]
  unfold jsonTierChunk chunkNumCandidates
  by_cases hs : s = ""
  · simp only [hs, if_true]
    exact htriv
  · simp only [hs, if_false]
    cases hl : pyJsonLoads s with
    | none => exact htriv
    | some v =>
      cases v with
      | obj kvs =>
        cases hkn : dget? kvs "key_numbers" with
        | none =>
          simp only [hkn]
          exact htriv
        | some kv =>
          cases kv with
          | obj kn =>
            simp only [hkn]
            exact knFold_first_wins kn acc k
          | null =>
            simp only [hkn]
            exact htriv
          | bool b =>
            simp only [hkn]
            exact htriv
          | int n =>
            simp only [hkn]
            exact htriv
          | float q =>
            simp only [hkn]
            exact htriv
          | str s2 =>
            simp only [hkn]
            exact htriv
          | arr es =>
            simp only [hkn]
            exact htriv
      | null => exact htriv
      | bool b => exact htriv
      | int n => exact htriv
      | float q => exact htriv
      | str s2 => exact htriv
      | arr es => exact htriv

theorem jsonCandidates_cons (k : String) (s : String) (rest : List String) :
    jsonCandidates k (s :: rest) = chunkNumCandidates k s ++ jsonCandidates k rest := by
  simp [jsonCandidates]

theorem orElse_assoc_head (a : Option PyVal) (l1 l2 : List ℚ) :
    ((a.orElse (fun _ => (l1.head?).map PyVal.float)).orElse
        (fun _ => (l2.head?).map PyVal.float)) =
      a.orElse (fun _ => ((l1 ++ l2).head?).map PyVal.float) := by
  cases a <;> cases l1 <;> rfl

/-- Tier 1 over all chunks, in document order. -/
theorem jsonTier_first_wins (summaries : List String) (k : String) :
    dget? (jsonTier summaries) k = ((jsonCandidates k summaries).head?).map PyVal.float := by
  have main : ∀ (ss : List String) (acc : PyDict),
      dget? (ss.foldl jsonTierChunk acc) k =
        (dget? acc k).orElse (fun _ => ((jsonCandidates k ss).head?).map PyVal.float) := by
    intro ss
    induction ss with
    | nil =>
      intro acc
      cases h : dget? acc k <;> simp [jsonCandidates, Option.orElse, h]
    | cons s rest ih =>
      intro acc
      rw [List.foldl_cons, ih (jsonTierChunk acc s), jsonTierChunk_first_wins,
        jsonCandidates_cons, orElse_assoc_head]
  have h0 : dget? ([] : PyDict) k = none := rfl
  rw [jsonTier, main, orElse_of_none h0]

/-! # Lemmas: later tiers never override a resolved key -/

theorem fallbackStep_preserves (joined : String) (acc : PyDict) (key : String)
    (pats : List RE) (k : String) (h : (dget? acc k).isSome) :
    dget? (fallbackStep joined acc key pats) k = dget? acc k := by
  by_cases hk : key = k
  · subst hk
    have hc : dcontains acc key = true := by rw [dcontains_eq_isSome]; exact h
    simp [fallbackStep, hc]
  · unfold fallbackStep
    split
    · rfl
    · split
      · split
        · exact dget?_dinsert_ne acc key k _ (Ne.symm hk)
        · rfl
      · cases hf : fallbackNumeric joined pats
        · simp
        · simp [dget?_dinsert_ne acc key k _ (Ne.symm hk)]

theorem fallbackTier_preserves (summaries : List String) (acc : PyDict) (k : String)
    (h : (dget? acc k).isSome) :
    dget? (fallbackTier summaries acc) k = dget? acc k := by
  unfold fallbackTier
  generalize fallback_patterns = pats
  induction pats generalizing acc with
  | nil => rfl
  | cons p rest ih =>
    rw [List.foldl_cons, ih _ (by rw [fallbackStep_preserves _ _ _ _ _ h]; exact h),
      fallbackStep_preserves _ _ _ _ _ h]

theorem deriveSolvency_preserves (acc : PyDict) (k : String)
    (hk : k ≠ "solvency_ratio") : dget? (deriveSolvency acc) k = dget? acc k := by
  unfold deriveSolvency
  split
  · split
    · split
      · exact dget?_dinsert_ne acc "solvency_ratio" k _ hk
      · rfl
    · rfl
  · rfl

/-! # Lemmas: shape invariants of the extracted dict -/

theorem knBranchKey_mem {s key : String} (h : knBranchKey s = some key) :
    key ∈ jsonTierKeys := by
  unfold knBranchKey at h
  dsimp only at h
  split_ifs at h <;> simp_all [jsonTierKeys]

theorem goodDict_dinsert {allowed : List String} {d : PyDict} {key : String} {v : PyVal}
    (hd : GoodDict allowed d) (hk : key ∈ allowed) (hv : GoodVal key v) :
    GoodDict allowed (dinsert d key v) := by
  refine ⟨nodup_dkeys_dinsert d key v hd.1, ?_⟩
  intro kv hkv
  obtain ⟨k2, v2⟩ := kv
  rcases mem_dinsert_val d key k2 v v2 hkv with h | h
  · exact hd.2 _ h
  · rw [h.1, h.2]
    exact ⟨hk, hv⟩

theorem goodPre_knSet {d : PyDict} (key : String) (v : PyVal)
    (hd : GoodPre d) (hk : key ∈ preKeys) : GoodPre (knSet d key v) := by
  unfold knSet
  cases parse_number v with
  | none => exact hd
  | some q =>
    show GoodPre (if q ≠ 0 ∧ ¬dcontains d key = true then
      dinsert d key (PyVal.float q) else d)
    split
    · exact goodDict_dinsert hd hk (Or.inl ⟨q, rfl⟩)
    · exact hd

theorem goodPre_knFoldStep {d : PyDict} (kv : String × PyVal)
    (hd : GoodPre d) : GoodPre (knFoldStep d kv) := by
  unfold knFoldStep
  cases hb : knBranchKey kv.1 with
  | none => exact hd
  | some key =>
    exact goodPre_knSet key kv.2 hd
      (by unfold preKeys; exact List.mem_append.mpr (Or.inl (knBranchKey_mem hb)))

theorem goodPre_knFold (kn : List (String × PyVal)) {acc : PyDict}
    (hacc : GoodPre acc) : GoodPre (kn.foldl knFoldStep acc) := by
  induction kn generalizing acc with
  | nil => exact hacc
  | cons kv rest ih => exact ih (goodPre_knFoldStep kv hacc)

theorem goodPre_jsonTierChunk {acc : PyDict} (s : String)
    (hacc : GoodPre acc) : GoodPre (jsonTierChunk acc s) := by
  unfold jsonTierChunk
  split
  · exact hacc
  · split <;>
      first
        | exact hacc
        | (split <;> first | exact hacc | exact goodPre_knFold _ hacc)

theorem goodPre_jsonTier (summaries : List String) : GoodPre (jsonTier summaries) := by
  unfold jsonTier
  have h0 : GoodPre ([] : PyDict) := ⟨List.nodup_nil, by simp⟩
  generalize hacc : ([] : PyDict) = acc at h0
  clear hacc
  induction summaries generalizing acc with
  | nil => exact h0
  | cons s rest ih => exact ih _ (goodPre_jsonTierChunk s h0)

theorem goodPre_fallbackStep {acc : PyDict} (joined key : String) (pats : List RE)
    (hacc : GoodPre acc) (hk : key ∈ preKeys) :
    GoodPre (fallbackStep joined acc key pats) := by
  unfold fallbackStep
  split
  · exact hacc
  · split
    · split
      · exact goodDict_dinsert hacc hk
          (Or.inr ⟨by assumption, rfl⟩)
      · exact hacc
    · cases fallbackNumeric joined pats with
      | none => exact hacc
      | some q => exact goodDict_dinsert hacc hk (Or.inl ⟨q, rfl⟩)

theorem goodPre_fallbackFold (joined : String) (pats : List (String × List RE)) :
    (∀ kv ∈ pats, kv.1 ∈ preKeys) → ∀ {acc : PyDict}, GoodPre acc →
      GoodPre (pats.foldl (fun a kv => fallbackStep joined a kv.1 kv.2) acc) := by
  induction pats with
  | nil =>
    intro _ acc hacc
    exact hacc
  | cons p rest ih =>
    intro hkeys acc hacc
    rw [List.foldl_cons]
    exact ih (fun kv hkv => hkeys kv (List.mem_cons.mpr (Or.inr hkv)))
      (goodPre_fallbackStep _ _ _ hacc (hkeys p (List.mem_cons.mpr (Or.inl rfl))))

theorem goodPre_fallbackTier (summaries : List String) {acc : PyDict}
    (hacc : GoodPre acc) : GoodPre (fallbackTier summaries acc) := by
  have hkeys : ∀ kv ∈ fallback_patterns, kv.1 ∈ preKeys := by
    intro kv hkv
    have hm : kv.1 ∈ fallback_patterns.map (·.1) := List.mem_map.mpr ⟨kv, hkv, rfl⟩
    have he : fallback_patterns.map (·.1) = preKeys := by with_unfolding_all rfl
    rw [he] at hm
    exact hm
  unfold fallbackTier
  exact goodPre_fallbackFold _ _ hkeys hacc

theorem goodPre_extractedPre (summaries : List String) : GoodPre (extractedPre summaries) :=
  goodPre_fallbackTier summaries (goodPre_jsonTier summaries)

theorem preKeys_subset_schema : ∀ k ∈ preKeys, k ∈ schema_keys := by decide

theorem goodSchema_derive {d : PyDict} (hd : GoodPre d) : GoodSchema (deriveSolvency d) := by
  have hds : GoodSchema d :=
    ⟨hd.1, fun kv hkv => ⟨preKeys_subset_schema kv.1 (hd.2 kv hkv).1, (hd.2 kv hkv).2⟩⟩
  unfold deriveSolvency
  split
  · split
    · split
      · exact goodDict_dinsert hds (by decide) (Or.inl ⟨_, rfl⟩)
      · exact hds
    · exact hds
  · exact hds

/-! # Lemmas: assembling the 13-key result -/

theorem dkeys_schemaNulls : dkeys schemaNulls = schema_keys := rfl

theorem dget?_schemaNulls {k : String} (hk : k ∈ schema_keys) :
    dget? schemaNulls k = some PyVal.null := by
  simp only [schema_keys, List.mem_cons, List.not_mem_nil, or_false] at hk
  rcases hk with rfl | rfl | rfl | rfl | rfl | rfl | rfl | rfl | rfl | rfl | rfl | rfl | rfl <;>
    rfl

theorem extractedPre_mem_keys {summaries : List String} {k : String}
    (h : k ∈ dkeys (extractedPre summaries)) : k ∈ preKeys := by
  rcases List.mem_map.mp h with ⟨kv, hkv, hk⟩
  rw [← hk]
  exact ((goodPre_extractedPre summaries).2 kv hkv).1

theorem extractedPre_solvency_none (summaries : List String) :
    dget? (extractedPre summaries) "solvency_ratio" = none := by
  apply dget?_eq_none_of_not_mem
  intro h
  have := extractedPre_mem_keys h
  revert this
  decide

theorem extract_lookup_resolved (summaries : List String) (k : String) (v : PyVal)
    (hv : dget? (deriveSolvency (extractedPre summaries)) k = some v) :
    dget? (extract_structured_metrics summaries) k = some v := by
  rw [extract_structured_metrics,
    dget?_dupdate _ _ _ (goodSchema_derive (goodPre_extractedPre summaries)).1, hv]
  rfl

theorem extract_lookup_null (summaries : List String) (k : String) (hk : k ∈ schema_keys)
    (hv : dget? (deriveSolvency (extractedPre summaries)) k = none) :
    dget? (extract_structured_metrics summaries) k = some PyVal.null := by
  rw [extract_structured_metrics,
    dget?_dupdate _ _ _ (goodSchema_derive (goodPre_extractedPre summaries)).1, hv,
    orElse_of_none rfl, dget?_schemaNulls hk]

theorem mem_of_dget? {d : PyDict} {k : String} {v : PyVal}
    (h : dget? d k = some v) : (k, v) ∈ d := by
  induction d with
  | nil => exact absurd h (by simp [dget?])
  | cons kv rest ih =>
    rw [show dget? (kv :: rest) k = if kv.1 = k then some kv.2 else dget? rest k from rfl] at h
    by_cases hk : kv.1 = k
    · rw [if_pos hk] at h
      exact List.mem_cons.mpr (Or.inl (by rw [← hk, ← Option.some.inj h]))
    · rw [if_neg hk] at h
      exact List.mem_cons.mpr (Or.inr (ih h))

theorem extract_lookup_typed (summaries : List String) (k : String) (hk : k ∈ schema_keys) :
    ∃ v, dget? (extract_structured_metrics summaries) k = some v ∧
      (v = PyVal.null ∨ (∃ q, v = PyVal.float q) ∨
        (k = "auditors_unqualified_opinion" ∧ v = PyVal.bool true)) := by
  cases hv : dget? (deriveSolvency (extractedPre summaries)) k with
  | none => exact ⟨PyVal.null, extract_lookup_null summaries k hk hv, Or.inl rfl⟩
  | some v =>
    refine ⟨v, extract_lookup_resolved summaries k v hv, ?_⟩
    have hg := (goodSchema_derive (goodPre_extractedPre summaries)).2 (k, v) (mem_of_dget? hv)
    rcases hg.2 with h2 | h2
    · exact Or.inr (Or.inl h2)
    · exact Or.inr (Or.inr h2)

/-! # Lemmas: the chunk packing loop -/

theorem joinParas_cons2 (p q : String) (t : List String) :
    joinParas (p :: q :: t) = p ++ "\n\n" ++ joinParas (q :: t) := rfl

theorem joinParas_cons_ne (x : String) (l : List String) (h : l ≠ []) :
    joinParas (x :: l) = x ++ "\n\n" ++ joinParas l := by
  cases l with
  | nil => exact absurd rfl h
  | cons q t => rfl

theorem joinParas_append (l1 l2 : List String) (h1 : l1 ≠ []) (h2 : l2 ≠ []) :
    joinParas (l1 ++ l2) = joinParas l1 ++ "\n\n" ++ joinParas l2 := by
  induction l1 with
  | nil => exact absurd rfl h1
  | cons p rest ih =>
    cases rest with
    | nil =>
      cases l2 with
      | nil => exact absurd rfl h2
      | cons q t => rfl
    | cons p2 rest2 =>
      have hih := ih (by simp)
      calc joinParas ((p :: p2 :: rest2) ++ l2)
          = p ++ "\n\n" ++ joinParas ((p2 :: rest2) ++ l2) := rfl
        _ = p ++ "\n\n" ++ (joinParas (p2 :: rest2) ++ "\n\n" ++ joinParas l2) := by
            rw [hih]
        _ = joinParas (p :: p2 :: rest2) ++ "\n\n" ++ joinParas l2 := by
            rw [joinParas_cons2]
            simp [String.append_assoc]

theorem joinParas_length (ps : List String) (h : ps ≠ []) :
    (joinParas ps).length + 2 = paraLenSum ps := by
  induction ps with
  | nil => exact absurd rfl h
  | cons p t ih =>
    cases t with
    | nil => simp [joinParas, paraLenSum]
    | cons q t2 =>
      rw [joinParas_cons2]
      have hih := ih (by simp)
      simp only [paraLenSum, List.map_cons, List.sum_cons, String.length_append,
        show ("\n\n" : String).length = 2 from rfl] at hih ⊢
      omega

theorem paraLenSum_append_one (l : List String) (p : String) :
    paraLenSum (l ++ [p]) = paraLenSum l + (p.length + 2) := by
  simp [paraLenSum]

theorem chunkLoop_ne_nil (maxChars : ℕ) (ps : List String) :
    ∀ (cur : List String) (clen : ℕ), cur ≠ [] →
      chunkLoop maxChars ps cur clen ≠ [] := by
  induction ps with
  | nil =>
    intro cur clen h
    simp [chunkLoop, h]
  | cons p t ih =>
    intro cur clen h
    simp only [chunkLoop]
    split
    · simp
    · exact ih _ _ (by simp)

theorem chunkLoop_join (maxChars : ℕ) (ps : List String) :
    ∀ (cur : List String) (clen : ℕ), cur ≠ [] →
      joinParas (chunkLoop maxChars ps cur clen) = joinParas (cur ++ ps) := by
  induction ps with
  | nil =>
    intro cur clen h
    simp only [chunkLoop, List.append_nil]
    rw [if_neg (by simpa using h)]
    rfl
  | cons p t ih =>
    intro cur clen h
    simp only [chunkLoop]
    split
    · rw [joinParas_cons_ne _ _ (chunkLoop_ne_nil maxChars t [p] _ (by simp)),
        ih [p] _ (by simp)]
      simp only [List.singleton_append]
      rw [← joinParas_append cur (p :: t) h (by simp)]
    · rw [ih (cur ++ [p]) _ (by simp), List.append_assoc]
      rfl

theorem chunkLoop_sizes (maxChars : ℕ) (pall : List String) (ps : List String) :
    ∀ (cur : List String) (clen : ℕ),
      (∀ p ∈ cur, p ∈ pall) → (∀ p ∈ ps, p ∈ pall) →
      clen = paraLenSum cur →
      (cur.length ≤ 1 ∨ clen ≤ maxChars) →
      ∀ c ∈ chunkLoop maxChars ps cur clen, c.length ≤ maxChars ∨ c ∈ pall := by
  induction ps with
  | nil =>
    intro cur clen hsub _ hlen hinv c hc
    by_cases hcur : cur.isEmpty
    · simp [chunkLoop, hcur] at hc
    · simp only [chunkLoop, hcur, Bool.false_eq_true, if_false, List.mem_singleton] at hc
      subst hc
      have hne : cur ≠ [] := by
        intro he
        rw [he] at hcur
        simp at hcur
      rcases hinv with h1 | h1
      · right
        obtain ⟨p, rfl⟩ : ∃ p, cur = [p] := by
          cases cur with
          | nil => exact absurd rfl hne
          | cons a t =>
            cases t with
            | nil => exact ⟨a, rfl⟩
            | cons b t2 => simp at h1
        exact hsub p (by simp)
      · left
        have hjl := joinParas_length cur hne
        omega
  | cons p t ih =>
    intro cur clen hsub hps hlen hinv c hc
    simp only [chunkLoop] at hc
    split at hc
    · rcases List.mem_cons.mp hc with rfl | h2
      · rename_i hcond
        have hne : cur ≠ [] := by
          intro he
          rw [he] at hcond
          simp at hcond
        rcases hinv with h1 | h1
        · right
          obtain ⟨p2, rfl⟩ : ∃ p2, cur = [p2] := by
            cases cur with
            | nil => exact absurd rfl hne
            | cons a t2 =>
              cases t2 with
              | nil => exact ⟨a, rfl⟩
              | cons b t3 => simp at h1
          exact hsub p2 (by simp)
        · left
          have hjl := joinParas_length cur hne
          omega
      · exact ih [p] (p.length + 2)
          (by
            intro x hx
            rw [List.mem_singleton.mp hx]
            exact hps p (by simp))
          (fun x hx => hps x (by simp [hx]))
          (by simp [paraLenSum]) (Or.inl (by simp)) c h2
    · rename_i hcond
      refine ih (cur ++ [p]) (clen + (p.length + 2))
        (by
          intro x hx
          rcases List.mem_append.mp hx with hx1 | hx1
          · exact hsub x hx1
          · rw [List.mem_singleton.mp hx1]
            exact hps p (by simp))
        (fun x hx => hps x (by simp [hx]))
        (by rw [paraLenSum_append_one, hlen]) ?_ c hc
      by_cases hcur : cur = []
      · left
        simp [hcur]
      · right
        rcases not_and_or.mp hcond with h3 | h3
        · omega
        · exact absurd (by simpa using hcur) h3

theorem schemaNulls_val {k : String} {v : PyVal} (h : (k, v) ∈ schemaNulls) :
    v = PyVal.null := by
  rcases List.mem_map.mp h with ⟨a, _, he⟩
  exact (congrArg Prod.snd he).symm

theorem extract_dkeys (summaries : List String) :
    dkeys (extract_structured_metrics summaries) = schema_keys := by
  have hg := goodSchema_derive (goodPre_extractedPre summaries)
  rw [extract_structured_metrics, dkeys_dupdate_subset]
  · exact dkeys_schemaNulls
  · intro k hk
    rw [dkeys_schemaNulls]
    rcases List.mem_map.mp hk with ⟨kv, hkv, he⟩
    rw [← he]
    exact (hg.2 kv hkv).1

theorem dcontains_dinsert_self (d : PyDict) (k : String) (v : PyVal) :
    dcontains (dinsert d k v) k = true := by
  rw [dcontains_eq_isSome, dget?_dinsert_self]
  rfl

theorem dcontains_dinsert_mono (d : PyDict) (k k2 : String) (v : PyVal)
    (h : dcontains d k = true) : dcontains (dinsert d k2 v) k = true := by
  by_cases he : k = k2
  · subst he
    exact dcontains_dinsert_self d k v
  · rw [dcontains_eq_isSome, dget?_dinsert_ne d k2 k v he, ← dcontains_eq_isSome]
    exact h

theorem dcontains_dupdate_mono (d e : PyDict) (k : String)
    (h : dcontains d k = true) : dcontains (dupdate d e) k = true := by
  induction e generalizing d with
  | nil => exact h
  | cons kv rest ih => exact ih _ (dcontains_dinsert_mono d k kv.1 kv.2 h)

theorem dcontains_dupdate_of_mem (d e : PyDict) (k : String) (h : k ∈ dkeys e) :
    dcontains (dupdate d e) k = true := by
  induction e generalizing d with
  | nil => simp [dkeys] at h
  | cons kv rest ih =>
    have hstep : dupdate d (kv :: rest) = dupdate (dinsert d kv.1 kv.2) rest := rfl
    rw [hstep, dkeys_cons] at *
    rcases List.mem_cons.mp h with h1 | h1
    · subst h1
      exact dcontains_dupdate_mono _ rest kv.1 (dcontains_dinsert_self d kv.1 kv.2)
    · exact ih _ h1

theorem findSome?_eq_none {α β : Type} (f : α → Option β) (l : List α)
    (h : ∀ x ∈ l, f x = none) : l.findSome? f = none := by
  induction l with
  | nil => rfl
  | cons a t ih =>
    rw [List.findSome?_cons, h a (by simp)]
    exact ih (fun x hx => h x (by simp [hx]))

/-! # The claims -/

/-- C4 counterexample: the numeric normalizer does **not** treat a
parenthesized value as negative — both `re.sub` passes simply delete the
parentheses, so `"(500)"` parses to `500`, not the `-500` the claim
states. -/
theorem parse_number_parens_not_negative :
    parse_number (.str "(500)") = some 500 ∧ parse_number (.str "(500)") ≠ some (-500) := by
  have h : parse_number (.str "(500)") = some 500 := by with_unfolding_all rfl
  refine ⟨h, ?_⟩
  rw [h]
  intro hx
  have h2 : (500 : ℚ) = -500 := Option.some.inj hx
  norm_num at h2

/-- C4 amended: `parse_number` strips commas and whitespace, then every
character other than `0-9 . - e E`, and parses what remains as a float.
Currency markers and thousands separators are removed and a leading
minus sign survives, but parentheses are deleted rather than negated
(`"(500)" ↦ 500`), scale words are deleted without applying any
multiplier (`"1.2 billion" ↦ 1.2`, not `1.2e9`), and `None` is returned
when the cleaned string is not a float literal. -/
theorem parse_number_amended :
    parse_number (.str "KShs 1,234.50") = some (2469 / 2) ∧
    parse_number (.str "-500") = some (-500) ∧
    parse_number (.str "(500)") = some 500 ∧
    parse_number (.str "1.2 billion") = some (6 / 5) ∧
    parse_number (.str "1.2b") = some (6 / 5) ∧
    parse_number (.str "12%") = some 12 ∧
    parse_number (.str "") = none ∧
    parse_number (.str "abc") = none := by
  refine ⟨?_, ?_, ?_, ?_, ?_, ?_, ?_, ?_⟩ <;> with_unfolding_all rfl

/-- C8: the chunker.  (a) Empty input yields an empty chunk list.
(b) Joining the chunks with the paragraph separator reproduces the
joined paragraph list — chunks are consecutive groups of whole
paragraphs in document order, never truncated or split.  (c) Every chunk
fits in `max_chars` unless it is a single (oversized) paragraph. -/
theorem chunk_text_correct (text : String) (maxChars : ℕ) :
    chunk_text "" maxChars = [] ∧
    joinParas (chunk_text text maxChars) = joinParas (splitParas text) ∧
    ∀ c ∈ chunk_text text maxChars, c.length ≤ maxChars ∨ c ∈ splitParas text := by
  have hstep : ∀ (p : String) (t : List String),
      chunkLoop maxChars (p :: t) [] 0 = chunkLoop maxChars t [p] (0 + (p.length + 2)) := by
    intro p t
    simp only [chunkLoop]
    rw [if_neg (by simp)]
    rfl
  refine ⟨rfl, ?_, ?_⟩
  · unfold chunk_text
    by_cases ht : text = ""
    · rw [if_pos ht, ht]
      show joinParas [] = joinParas (splitParas "")
      with_unfolding_all rfl
    · rw [if_neg ht]
      cases hps : splitParas text with
      | nil => rfl
      | cons p t =>
        rw [hstep p t, chunkLoop_join maxChars t [p] _ (by simp)]
        simp only [List.singleton_append]
  · intro c hc
    unfold chunk_text at hc
    by_cases ht : text = ""
    · rw [if_pos ht] at hc
      simp at hc
    · rw [if_neg ht] at hc
      cases hps : splitParas text with
      | nil =>
        rw [hps] at hc
        simp [chunkLoop] at hc
      | cons p t =>
        rw [hps] at hc
        rw [hstep p t] at hc
        exact chunkLoop_sizes maxChars (p :: t) t [p] (0 + (p.length + 2))
          (by
            intro x hx
            rw [List.mem_singleton.mp hx]
            simp)
          (fun x hx => by simp [hx])
          (by simp [paraLenSum])
          (Or.inl (by simp)) c hc

/-- C8 witness: `"aaaa\n\nbb"` with `max_chars = 5` packs into
`["aaaa", "bb"]`; the first chunk satisfies the size disjunction. -/
theorem chunk_text_correct_witness :
    ("aaaa" : String).length ≤ 5 ∨ "aaaa" ∈ splitParas "aaaa\n\nbb" := by
  apply (chunk_text_correct "aaaa\n\nbb" 5).2.2
  rw [show chunk_text "aaaa\n\nbb" 5 = ["aaaa", "bb"] from by with_unfolding_all rfl]
  exact List.mem_cons.mpr (Or.inl rfl)

/-- C2: first-wins aggregation.  For each tier-1 canonical key, if the
ordered stream of candidate values (chunks in document order, entries in
order, parse-able and truthy) is nonempty, the final aggregated value is
its **head** — a value from a later chunk never overrides an
already-resolved key, through the fallback tier, the solvency derivation
and the final null-filling.  ("Non-empty" is Python truthiness: the
`if val` guard also drops a parsed `0.0`.) -/
theorem extract_first_wins (summaries : List String) (k : String) (q : ℚ)
    (hk : k ∈ jsonTierKeys)
    (hq : (jsonCandidates k summaries).head? = some q) :
    dget? (extract_structured_metrics summaries) k = some (PyVal.float q) := by
  have h1 : dget? (jsonTier summaries) k = some (.float q) := by
    rw [jsonTier_first_wins, hq]
    rfl
  have h2 : dget? (extractedPre summaries) k = some (.float q) := by
    rw [extractedPre, fallbackTier_preserves _ _ _ (by rw [h1]; rfl), h1]
  have hk2 : k ≠ "solvency_ratio" := by
    intro he
    subst he
    revert hk
    decide
  exact extract_lookup_resolved summaries k _
    (by rw [deriveSolvency_preserves _ _ hk2, h2])

/-- C2 witness: chunk 1 offers `capital=500`, chunk 2 offers
`capital=900`; the aggregate is `500`. -/
theorem extract_first_wins_witness :
    dget? (extract_structured_metrics [onlyCapital, laterCapital]) "capital" =
      some (PyVal.float 500) :=
  extract_first_wins [onlyCapital, laterCapital] "capital" 500 (by decide)
    (by with_unfolding_all rfl)

/-- C3: the solvency derivation.  `solvency_ratio` is never produced by
the scanning tiers (no tier-1 branch and no fallback pattern assigns
it), and whenever `capital` and `liabilities` are resolved with
`liabilities ≠ 0`, the aggregated `solvency_ratio` is
`round((capital - liabilities) / liabilities * 100, 2)`. -/
theorem solvency_ratio_derived (summaries : List String) (c l : ℚ)
    (hc : dget? (extractedPre summaries) "capital" = some (.float c))
    (hl : dget? (extractedPre summaries) "liabilities" = some (.float l))
    (hlnz : l ≠ 0) :
    dget? (extractedPre summaries) "solvency_ratio" = none ∧
    dget? (extract_structured_metrics summaries) "solvency_ratio" =
      some (PyVal.float (pyRound2 ((c - l) / l * 100))) := by
  refine ⟨extractedPre_solvency_none summaries, ?_⟩
  apply extract_lookup_resolved
  unfold deriveSolvency
  rw [if_pos ⟨by rw [dcontains_eq_isSome, hc]; rfl, by rw [dcontains_eq_isSome, hl]; rfl⟩]
  rw [hc, hl]
  show dget? (if l ≠ 0 then dinsert (extractedPre summaries) "solvency_ratio"
      (PyVal.float (pyRound2 ((c - l) / l * 100))) else extractedPre summaries)
      "solvency_ratio" = _
  rw [if_pos hlnz, dget?_dinsert_self]

/-- C3 witness: `capital=1,000,000` and `liabilities=800,000` with no
literal ratio give `solvency_ratio = 25.0`
(`pyRound2 ((1000000 - 800000) / 800000 * 100) = 25`). -/
theorem solvency_ratio_derived_witness :
    dget? (extractedPre [capLiabChunk]) "solvency_ratio" = none ∧
    dget? (extract_structured_metrics [capLiabChunk]) "solvency_ratio" =
      some (PyVal.float 25) := by
  have h := solvency_ratio_derived [capLiabChunk] 1000000 800000
    (by with_unfolding_all rfl) (by with_unfolding_all rfl) (by norm_num)
  refine ⟨h.1, ?_⟩
  rw [h.2]
  rw [show pyRound2 (((1000000 : ℚ) - 800000) / 800000 * 100) = 25 from by
    with_unfolding_all rfl]

/-- C10: for any list of chunk summaries — empty, malformed JSON,
anything — `extract_structured_metrics` returns a dict whose key list is
exactly the 13 canonical `schema_keys` (never raising: every failure
path in the source is a caught exception), and every value is `None`, a
float, or `True` for `auditors_unqualified_opinion`. -/
theorem extract_schema_complete (summaries : List String) :
    dkeys (extract_structured_metrics summaries) = schema_keys ∧
    ∀ kv ∈ extract_structured_metrics summaries,
      kv.2 = PyVal.null ∨ (∃ q, kv.2 = PyVal.float q) ∨
        (kv.1 = "auditors_unqualified_opinion" ∧ kv.2 = PyVal.bool true) := by
  have hg := goodSchema_derive (goodPre_extractedPre summaries)
  refine ⟨extract_dkeys summaries, ?_⟩
  · intro kv hkv
    obtain ⟨k2, v2⟩ := kv
    rcases mem_dupdate_val _ _ _ _ hkv with h | h
    · exact Or.inl (schemaNulls_val h)
    · rcases (hg.2 _ h).2 with h2 | h2
      · exact Or.inr (Or.inl h2)
      · exact Or.inr (Or.inr h2)

/-- C10 witness: on the single-chunk input carrying only `capital`, the
entry `("capital", 500.0)` of the result is a float. -/
theorem extract_schema_complete_witness :
    PyVal.float 500 = PyVal.null ∨ (∃ q, PyVal.float 500 = PyVal.float q) ∨
      (("capital" : String) = "auditors_unqualified_opinion" ∧
        PyVal.float 500 = PyVal.bool true) := by
  apply (extract_schema_complete [onlyCapital]).2 ("capital", PyVal.float 500)
  rw [show extract_structured_metrics [onlyCapital] =
      ("capital", PyVal.float 500) :: (schemaNulls.drop 1) from by with_unfolding_all rfl]
  exact List.mem_cons.mpr (Or.inl rfl)

/-- C5 counterexample: on the spec's end-to-end document the pipeline
extracts **nothing**: `summarize_chunk`'s labeled patterns fail on both
lines (`total equity` is followed by " (capital)", and the figures are
prefixed by `KShs`, which the `[0-9,\.]+` capture cannot cross), and no
`×1000` unit-scale handling exists anywhere in the code, so `capital` is
`None` rather than the claimed `500000000`. -/
theorem end_to_end_no_unit_scaling :
    docFinancialsKey "capital"
        (summarize_document envNoCreds 3 "gemini-2.5-flash" c5doc none) = some PyVal.null ∧
    docFinancialsKey "capital"
        (summarize_document envNoCreds 3 "gemini-2.5-flash" c5doc none) ≠
      some (PyVal.float 500000000) := by
  have h : docFinancialsKey "capital"
      (summarize_document envNoCreds 3 "gemini-2.5-flash" c5doc none) = some PyVal.null := by
    with_unfolding_all rfl
  refine ⟨h, ?_⟩
  rw [h]
  intro hx
  exact PyVal.noConfusion (Option.some.inj hx)

/-- C5 amended: the code applies no unit-scale multiplier at all — a
`KShs '000` header is inert text.  On the spec's synthetic document the
chunk summary carries an empty `key_numbers` and the aggregate is the
all-null 13-key mapping (so in particular `solvency_ratio` is null, not
`25.0`). -/
theorem end_to_end_all_null :
    summarize_chunk c5doc = c5sum ∧
    extract_structured_metrics [c5sum] = schemaNulls := by
  constructor <;> with_unfolding_all rfl

/-- C6 counterexample: tier 1 performs no all-or-nothing validation.  A
chunk summary whose `key_numbers` carries only `capital` (12 of the 13
canonical keys missing) is **partially accepted**: `capital` is taken
from it rather than the whole response being treated as a failed
tier. -/
theorem tier1_partial_acceptance :
    dget? (extract_structured_metrics [onlyCapital]) "capital" = some (PyVal.float 500) ∧
    dget? (extract_structured_metrics [onlyCapital]) "liabilities" = some PyVal.null := by
  constructor <;> with_unfolding_all rfl

/-- C6 amended: the first extraction tier simply JSON-parses each chunk
summary and accepts whatever `key_numbers` entries are present,
key-by-key, with no completeness check and no LLM call; a summary that
is not JSON contributes nothing to tier 1 and extraction falls through
to the labeled-regex patterns over the joined raw text. -/
theorem tier1_no_strict_validation :
    dget? (extract_structured_metrics [onlyGwp]) "gwp" = some (PyVal.float 250) ∧
    dget? (extract_structured_metrics [onlyGwp]) "capital" = some PyVal.null ∧
    dget? (extract_structured_metrics [regexOnlyChunk]) "capital" = some (PyVal.float 700) := by
  refine ⟨?_, ?_, ?_⟩ <;> with_unfolding_all rfl

/-- C1 counterexample: for empty (or unreadable) PDF bytes,
`extract_text_from_pdf` reduces to `""` and `summarize_document`
short-circuits with `metrics = {}` — the returned metrics mapping
contains none of the 13 canonical keys, so the output **is** a partial
(indeed empty) mapping on this input. -/
theorem completeness_fails_on_empty :
    docMetrics (summarize_document envNoCreds 3 "gemini-2.5-flash" "" none) =
      some (PyVal.obj []) := by
  with_unfolding_all rfl

/-- C1 amended: when text extraction yields nonempty text (and the
synthesized `metrics` value is a dict, as it always is when the LLM is
unavailable), the canonical keys live one level down: the returned
`metrics` has a `"financials"` member that maps every one of the 13
canonical `MetricKeys` to a typed value — null, a float, or `True` for
`auditors_unqualified_opinion`.  When extraction yields empty text the
mapping is `{}` (see the counterexample). -/
theorem financials_complete (env : LlmEnv) (retries : ℕ) (m : String)
    (text : String) (title : Option String)
    (hne : text ≠ "")
    (hok : synthMetricsOkB env retries m (chunkSummariesOf text) = true) :
    ∃ fs kvs fkvs,
      summarize_document env retries m text title = some fs ∧
      fs.metrics = PyVal.obj kvs ∧
      dget? kvs "financials" = some (PyVal.obj fkvs) ∧
      ∀ k ∈ schema_keys, ∃ v, dget? fkvs k = some v ∧
        (v = PyVal.null ∨ (∃ q, v = PyVal.float q) ∨
          (k = "auditors_unqualified_opinion" ∧ v = PyVal.bool true)) := by
  unfold summarize_document
  rw [if_neg hne]
  dsimp only
  unfold synthMetricsOkB at hok
  cases hm : pyGet (synthesize_summaries env retries m (chunkSummariesOf text))
      "metrics" (.obj []) with
  | obj kvs =>
    simp only [hm] at hok
    cases hf : dget? kvs "financials" with
    | none =>
      simp only [hm, hf, Option.getD_none]
      refine ⟨_, _, _, rfl, rfl, dget?_dinsert_self _ _ _, ?_⟩
      intro k hk
      obtain ⟨v, hv, hty⟩ := extract_lookup_typed (chunkSummariesOf text) k hk
      refine ⟨v, ?_, hty⟩
      rw [dget?_dupdate _ _ _ (by rw [extract_dkeys]; decide), hv]
      rfl
    | some v =>
      simp only [hf] at hok
      cases v with
      | obj fkvs =>
        simp only [hm, hf, Option.getD_some]
        refine ⟨_, _, _, rfl, rfl, dget?_dinsert_self _ _ _, ?_⟩
        intro k hk
        obtain ⟨v, hv, hty⟩ := extract_lookup_typed (chunkSummariesOf text) k hk
        refine ⟨v, ?_, hty⟩
        rw [dget?_dupdate _ _ _ (by rw [extract_dkeys]; decide), hv]
        rfl
      | null => simp at hok
      | bool b => simp at hok
      | int n => simp at hok
      | float q => simp at hok
      | str s => simp at hok
      | arr es => simp at hok
  | null =>
    simp only [hm] at hok
    simp at hok
  | bool b =>
    simp only [hm] at hok
    simp at hok
  | int n =>
    simp only [hm] at hok
    simp at hok
  | float q =>
    simp only [hm] at hok
    simp at hok
  | str s =>
    simp only [hm] at hok
    simp at hok
  | arr es =>
    simp only [hm] at hok
    simp at hok

/-- C1 amended, witness: a credential-less run on the text `"hello"`. -/
theorem financials_complete_witness :
    ∃ fs kvs fkvs,
      summarize_document envNoCreds 3 "gemini-2.5-flash" "hello" none = some fs ∧
      fs.metrics = PyVal.obj kvs ∧
      dget? kvs "financials" = some (PyVal.obj fkvs) ∧
      ∀ k ∈ schema_keys, ∃ v, dget? fkvs k = some v ∧
        (v = PyVal.null ∨ (∃ q, v = PyVal.float q) ∨
          (k = "auditors_unqualified_opinion" ∧ v = PyVal.bool true)) :=
  financials_complete envNoCreds 3 "gemini-2.5-flash" "hello" none (by decide)
    (by with_unfolding_all rfl)

/-- C7 counterexample: `missing_items` does **not** enumerate the
still-null canonical keys.  On the text `"hello"` with no LLM, every
canonical key (e.g. `capital`) is null, yet `missing_items` is the empty
list — it came from the (failed) synthesis call, not from the metrics. -/
theorem missing_items_not_null_keys :
    docMissing (summarize_document envNoCreds 3 "gemini-2.5-flash" "hello" none) =
      some (PyVal.arr []) ∧
    docFinancialsKey "capital"
        (summarize_document envNoCreds 3 "gemini-2.5-flash" "hello" none) =
      some PyVal.null := by
  constructor <;> with_unfolding_all rfl

/-- C7 amended: `missing_items` is whatever the synthesis step's JSON
returned under `"missing_items"` (the empty list when the LLM call
yields nothing), and `["document_text"]` for empty extracted text; it is
never derived from the null keys of the structured metrics. -/
theorem missing_items_from_synthesis (env : LlmEnv) (retries : ℕ) (m : String)
    (text : String) (title : Option String) (hne : text ≠ "") :
    docMissing (summarize_document env retries m text title) =
      (summarize_document env retries m text title).map (fun _ =>
        pyGet (synthesize_summaries env retries m (chunkSummariesOf text))
          "missing_items" (.arr [])) ∧
    docMissing (summarize_document env retries m "" title) =
      some (PyVal.arr [.str "document_text"]) := by
  constructor
  · unfold docMissing summarize_document
    rw [if_neg hne]
    dsimp only
    split
    · split
      · rfl
      · rfl
    · rfl
  · rfl

/-- C7 amended, witness: the credential-less `"hello"` run. -/
theorem missing_items_from_synthesis_witness :
    docMissing (summarize_document envNoCreds 3 "gemini-2.5-flash" "hello" none) =
      (summarize_document envNoCreds 3 "gemini-2.5-flash" "hello" none).map (fun _ =>
        pyGet (synthesize_summaries envNoCreds 3 "gemini-2.5-flash"
          (chunkSummariesOf "hello")) "missing_items" (.arr [])) ∧
    docMissing (summarize_document envNoCreds 3 "gemini-2.5-flash" "" none) =
      some (PyVal.arr [.str "document_text"]) :=
  missing_items_from_synthesis envNoCreds 3 "gemini-2.5-flash" "hello" none (by decide)

/-- C9: `_call_gpt` is total in the model (every exception path of the
source is a caught branch) and returns `""` both when no credentials are
configured and when every attempt — both candidate model-name forms with
all retries, and the discovered exact model ids — fails to produce a
truthy parsed text. -/
theorem call_gpt_total_failure (env : LlmEnv) (retries : ℕ) (m : String)
    (mo : Option String) (messages : List (String × String)) :
    (noCreds env → call_gpt env retries m mo messages = "") ∧
    ((∀ p c n, truthyRes (invokeOnce env p c n) = none) →
      call_gpt env retries m mo messages = "") := by
  have main : (∀ p c n, truthyRes (invokeOnce env p c n) = none) →
      call_gpt env retries m mo messages = "" := by
    intro h
    unfold call_gpt
    dsimp only
    rw [findSome?_eq_none _ _ (fun cand _ =>
      findSome?_eq_none _ _ (fun i _ => h _ _ _))]
    cases hl : listModelsResult env with
    | none => rfl
    | some avail =>
      show (match List.findSome?
              (fun x => truthyRes (invokeOnce env (promptOf messages) x 0)) avail with
            | some r => r
            | none => "") = ""
      rw [findSome?_eq_none _ _ (fun x _ => h _ _ _)]
  constructor
  · intro hnc
    apply main
    intro p c n
    unfold truthyRes invokeOnce
    rw [if_pos ⟨by rw [hnc.1]; rfl, hnc.2⟩]
    rfl
  · exact main

/-- C9 witness: the credential-less environment. -/
theorem call_gpt_total_failure_witness :
    noCreds envNoCreds ∧ call_gpt envNoCreds 3 "gemini-2.5-flash" none [] = "" :=
  ⟨⟨rfl, rfl⟩, (call_gpt_total_failure envNoCreds 3 "gemini-2.5-flash" none []).1 ⟨rfl, rfl⟩⟩

end Solvency
